import Mathlib

/-!
Verification of the SQL RAG pipeline (schema retrieval, query generation,
validation, safe execution, orchestration) of the DualRAG repository.

Strings are modelled as lists of characters (`Str`).  Python string
operations (`strip`, `upper`, `in`, `count`, `startswith`, slicing) are
embedded as executable functions on `Str`; the concrete regular
expressions used by the code are embedded as dedicated scanners.  Floats
are modelled as exact rationals.  External effects (the LLM, the
database driver, the result formatter, wall-clock time) are oracle
parameters; raised exceptions are modelled with `Except`.
-/

/-- Strings of the embedded programs: lists of characters. -/
abbrev Str := List Char

/-- Character list of a Lean string literal. -/
def lit (s : String) : Str := s.data

/-- The single-quote character (codepoint 39). -/
def quoteChar : Char := Char.ofNat 39

/-- The semicolon character. -/
def semiChar : Char := Char.ofNat 59

/-- The hyphen character, used by the SQL comment marker. -/
def dashChar : Char := Char.ofNat 45

/-- The two-character SQL inline comment marker. -/
def ddash : Str := [dashChar, dashChar]

/-- The two-character SQL block comment opener. -/
def copen : Str := ['/', '*']

/-- Python `str.isspace` / `\s` on the ASCII whitespace characters. -/
def pyIsSpace (c : Char) : Bool :=
  c.toNat = 32 || c.toNat = 9 || c.toNat = 10 || c.toNat = 13 || c.toNat = 11 || c.toNat = 12

/-- Decimal digit test (`\d`). -/
def pyIsDigit (c : Char) : Bool := 48 ≤ c.toNat && c.toNat ≤ 57

/-- Python `\w`: letters, digits and underscore (ASCII model). -/
def pyIsWordChar (c : Char) : Bool :=
  (97 ≤ c.toNat && c.toNat ≤ 122) || (65 ≤ c.toNat && c.toNat ≤ 90) || pyIsDigit c || c.toNat = 95

/-- Python `str.upper` (ASCII model, character-wise). -/
def pyUpper (s : Str) : Str := s.map Char.toUpper

/-- Python `str.lower` (ASCII model, character-wise). -/
def pyLower (s : Str) : Str := s.map Char.toLower

/-- Python `str.lstrip()`. -/
def pyLstrip (s : Str) : Str := s.dropWhile pyIsSpace

/-- Python `str.rstrip()`. -/
def pyRstrip (s : Str) : Str := (s.reverse.dropWhile pyIsSpace).reverse

/-- Python `str.strip()`. -/
def pyStrip (s : Str) : Str := pyLstrip (pyRstrip s)

/-- Python substring containment `pat in s`. -/
def containsSub (pat : Str) : Str → Bool
  | [] => pat.isEmpty
  | c :: t => pat.isPrefixOf (c :: t) || containsSub pat t

/-- Python `str.count` for the non-overlapping two-character pattern
backslash-quote, as used by the validator's quote balance check. -/
def countBQ : Str → Nat
  | [] => 0
  | [_] => 0
  | a :: b :: t =>
    if a = '\\' ∧ b = quoteChar then 1 + countBQ t else countBQ (b :: t)

/-! ### QueryGenerator (src/rag/sql/query_generator.py) -/

/-- Embedding of `QueryGenerator._parse_response`: strips markdown code
fences and a trailing semicolon from the LLM output. -/
def parse_response (response : Str) : Str :=
  let r1 := pyStrip response
  let r2 :=
    if (lit "```sql").isPrefixOf r1 then r1.drop 6
    else if (lit "```").isPrefixOf r1 then r1.drop 3
    else r1
  let r3 := if (lit "```").isSuffixOf r2 then r2.take (r2.length - 3) else r2
  let r4 := pyStrip r3
  let r5 := if r4.getLast? = some semiChar then r4.dropLast else r4
  pyStrip r5

/-- Embedding of `QueryGenerator._estimate_confidence`.  Floats are
modelled as exact rationals. -/
def estimate_confidence (sql : Str) (relevant_tables : List Str) : ℚ :=
  let sql_upper := pyUpper sql
  let c1 : ℚ := mkRat 5 10
  let c2 := if (lit "SELECT").isPrefixOf sql_upper then c1 + mkRat 2 10 else c1
  let table_count := (relevant_tables.filter (fun t => containsSub (pyUpper t) sql_upper)).length
  let c3 :=
    if 0 < table_count then
      c2 + mkRat 15 100 * min ((table_count : ℚ) / (relevant_tables.length : ℚ)) 1
    else c2
  let c4 := if containsSub (lit "FROM") sql_upper then c3 + mkRat 1 10 else c3
  let c5 := if containsSub ddash sql || containsSub copen sql then c4 - mkRat 1 10 else c4
  max 0 (min 1 c5)

/-- The confidence formula exactly as the specification states it:
base 0.5, +0.2 for a SELECT start, +0.15 times the fraction of retrieved
tables referenced (0 when none is referenced), +0.1 for FROM, -0.1 for
comment markers, clamped to [0,1].  Written from the spec for
comparison with `estimate_confidence`. -/
def confidence_formula (sql : Str) (relevant_tables : List Str) : ℚ :=
  let sql_upper := pyUpper sql
  let table_count := (relevant_tables.filter (fun t => containsSub (pyUpper t) sql_upper)).length
  let frac : ℚ :=
    if table_count = 0 then 0 else (table_count : ℚ) / (relevant_tables.length : ℚ)
  let raw : ℚ :=
    mkRat 5 10
    + (if (lit "SELECT").isPrefixOf sql_upper then mkRat 2 10 else 0)
    + mkRat 15 100 * frac
    + (if containsSub (lit "FROM") sql_upper then mkRat 1 10 else 0)
    - (if containsSub ddash sql || containsSub copen sql then mkRat 1 10 else 0)
  max 0 (min 1 raw)

/-! ### QueryValidator (src/rag/sql/validator.py) -/

/-- Embedding of `QueryValidator._validate_syntax`. -/
def validate_syntax (query : Str) : List Str :=
  let query_upper := pyUpper (pyStrip query)
  if pyStrip query = [] then [lit "Query cannot be empty"]
  else
    (if (lit "SELECT").isPrefixOf query_upper || (lit "WITH").isPrefixOf query_upper then []
     else [lit "Query must start with SELECT or WITH, got: " ++ query.take 20])
    ++ (if query.count '(' = query.count ')' then [] else [lit "Unbalanced parentheses"])
    ++ (if ((query.count quoteChar : Int) - (countBQ query : Int)) % 2 = 0 then []
        else [lit "Unmatched single quotes"])
    ++ (if 1 < query.count semiChar then [lit "Multiple SQL statements not allowed"] else [])

/-! ### Digit rendering (Python `f-string` of an int, `int()` of a digit run) -/

/-- The character of a decimal digit. -/
def digitChar (d : Nat) : Char :=
  match d with
  | 0 => '0' | 1 => '1' | 2 => '2' | 3 => '3' | 4 => '4'
  | 5 => '5' | 6 => '6' | 7 => '7' | 8 => '8' | _ => '9'

/-- Python `int()` of a run of decimal digit characters. -/
def digitsToNat (ds : Str) : Nat := ds.foldl (fun a c => 10 * a + (c.toNat - 48)) 0

/-- Fueled core of decimal rendering (fuel keeps the recursion structural
so that it evaluates inside the kernel). -/
def natToDigitsCore : Nat → Nat → Str
  | 0, _ => []
  | _ + 1, 0 => []
  | f + 1, n + 1 => natToDigitsCore f ((n + 1) / 10) ++ [digitChar ((n + 1) % 10)]

/-- Python `str(n)` for a natural number. -/
def natToDigits (n : Nat) : Str := if n = 0 then ['0'] else natToDigitsCore n n

/-! ### The regex `LIMIT\s+(\d+)` (search and IGNORECASE sub) -/

/-- Case-insensitive match of the literal `LIMIT` at the head of a string;
returns the remainder on success. -/
def stripLIMIT : Str → Option Str
  | c1 :: c2 :: c3 :: c4 :: c5 :: r =>
    if c1.toUpper = 'L' ∧ c2.toUpper = 'I' ∧ c3.toUpper = 'M'
        ∧ c4.toUpper = 'I' ∧ c5.toUpper = 'T' then some r else none
  | _ => none

/-- Head match of `LIMIT\s+(\d+)` (case-insensitive): the numeric value of
the captured maximal digit run, and the rest of the string. -/
def matchLimitAt (s : Str) : Option (Nat × Str) :=
  match stripLIMIT s with
  | none => none
  | some r =>
    if (r.takeWhile pyIsSpace).isEmpty then none
    else
      let r2 := r.dropWhile pyIsSpace
      let ds := r2.takeWhile pyIsDigit
      if ds.isEmpty then none
      else some (digitsToNat ds, r2.dropWhile pyIsDigit)

/-- Python `re.search(r'LIMIT\s+(\d+)', s)`: value of the leftmost match. -/
def searchLimit : Str → Option Nat
  | [] => none
  | c :: t =>
    match matchLimitAt (c :: t) with
    | some (n, _) => some n
    | none => searchLimit t

/-- Scan for a case-insensitive occurrence of the literal `LIMIT`. -/
def hasLimitCI : Str → Bool
  | [] => false
  | c :: t => (stripLIMIT (c :: t)).isSome || hasLimitCI t

/-- Fueled core of `re.sub(r'LIMIT\s+\d+', repl, s, flags=IGNORECASE)`:
replaces every non-overlapping leftmost match. -/
def subLimitF (repl : Str) : Nat → Str → Str
  | 0, s => s
  | _ + 1, [] => []
  | f + 1, c :: t =>
    match matchLimitAt (c :: t) with
    | some (_, rest) => repl ++ subLimitF repl f rest
    | none => c :: subLimitF repl f t

/-- Python `re.sub(r'LIMIT\s+\d+', repl, s, flags=IGNORECASE)`. -/
def subLimit (repl : Str) (s : Str) : Str := subLimitF repl s.length s

/-! ### QueryExecutor (src/rag/sql/executor.py) -/

/-- Embedding of `QueryExecutor._add_result_limit`. -/
def add_result_limit (max_rows : Nat) (query : Str) : Str :=
  let query_upper := pyUpper (pyStrip query)
  if containsSub (lit "LIMIT") query_upper then
    match searchLimit query_upper with
    | some existing_limit =>
      if max_rows < existing_limit then
        subLimit (lit "LIMIT " ++ natToDigits max_rows) query
      else query
    | none => query
  else
    let q1 :=
      if (pyRstrip query).getLast? = some semiChar then (pyRstrip query).dropLast else query
    pyStrip q1 ++ (lit " LIMIT " ++ natToDigits max_rows)

/-- The `SQLQuery` schema object.  Only `query_string` is observed by the
embedded code paths; the pass-through fields `parameters`,
`schema_context` and `intent` are omitted. -/
structure SQLQueryT where
  query_string : Str
deriving DecidableEq

/-- A Python exception: `ValueError` or any other `Exception`. -/
inductive PyExc where
  | valueError (msg : Str)
  | otherExc (msg : Str)
deriving DecidableEq

/-- The dict returned by `SQLConnector.execute_query`. -/
structure ConnResult where
  rows : List (List (Str × Str))
  column_names : List Str
  row_count : Nat
  status : Str
  error_message : Option Str
deriving DecidableEq

/-- The `SQLResult` schema object.  `execution_time_ms` is supplied by the
caller (wall-clock time is an oracle). -/
structure SQLResultT where
  query : Str
  rows : List (List (Str × Str))
  column_names : List Str
  row_count : Nat
  execution_time_ms : ℚ
  status : Str
  error_message : Option Str
deriving DecidableEq

/-- The executor's dangerous keyword list. -/
def dangerous_keywords : List Str :=
  [lit "DROP", lit "DELETE", lit "INSERT", lit "UPDATE", lit "ALTER", lit "CREATE",
   lit "TRUNCATE", lit "GRANT", lit "REVOKE", lit "VACUUM"]

/-- The executor's allowed read-only query starts. -/
def allowed_starts : List Str :=
  [lit "SELECT", lit "WITH", lit "EXPLAIN", lit "ANALYZE", lit "SHOW", lit "DESCRIBE", lit "DESC"]

/-- Embedding of `QueryExecutor._validate_query`; `some msg` models a
raised `ValueError`.  The injection-pattern block of the source only logs
warnings and contributes nothing to the outcome, so it does not appear in
the result. -/
def validate_query (enable_select_only : Bool) (query : Str) : Option Str :=
  if enable_select_only
      ∧ ¬ allowed_starts.any (fun s => s.isPrefixOf (pyUpper (pyStrip query))) then
    some (lit "Only read-only queries are allowed")
  else
    match dangerous_keywords.find?
        (fun k => containsSub k (pyUpper (pyStrip query)) && (k != lit "SELECT")) with
    | some k => some (lit "Query contains dangerous keyword " ++ k ++ lit " not allowed")
    | none =>
      if (pyUpper (pyStrip query)).isEmpty || (pyUpper (pyStrip query)).all pyIsSpace then
        some (lit "Query cannot be empty")
      else none

/-- Embedding of `QueryExecutor.execute`.  The connector is an oracle from
the dispatched query text to a result or a raised exception; the second
component of the result collects every query dispatched to the backend. -/
def execute (max_rows : Nat) (enable_select_only : Bool)
    (conn : Str → Except PyExc ConnResult) (elapsed : ℚ) (sql_query : SQLQueryT) :
    SQLResultT × List Str :=
  match validate_query enable_select_only sql_query.query_string with
  | some msg =>
    ({ query := sql_query.query_string, rows := [], column_names := [], row_count := 0,
       execution_time_ms := elapsed, status := lit "error", error_message := some msg }, [])
  | none =>
    match conn (add_result_limit max_rows sql_query.query_string) with
    | Except.error (PyExc.valueError m) =>
      ({ query := sql_query.query_string, rows := [], column_names := [], row_count := 0,
         execution_time_ms := elapsed, status := lit "error", error_message := some m },
       [add_result_limit max_rows sql_query.query_string])
    | Except.error (PyExc.otherExc m) =>
      ({ query := sql_query.query_string, rows := [], column_names := [], row_count := 0,
         execution_time_ms := elapsed, status := lit "error",
         error_message := some (lit "Unexpected error: " ++ m) },
       [add_result_limit max_rows sql_query.query_string])
    | Except.ok r =>
      ({ query := sql_query.query_string, rows := r.rows, column_names := r.column_names,
         row_count := r.row_count, execution_time_ms := elapsed, status := r.status,
         error_message := r.error_message },
       [add_result_limit max_rows sql_query.query_string])

/-- Embedding of `SQLConnector.execute_query`: the driver cursor is an
oracle; every outcome is converted into a status-tagged dict and no
exception escapes. -/
def connector_execute (backend : Str → Except Str (List (List (Str × Str)) × List Str))
    (query : Str) : ConnResult :=
  match backend query with
  | Except.error e =>
    { rows := [], column_names := [], row_count := 0,
      status := lit "error", error_message := some e }
  | Except.ok (rows, cols) =>
    { rows := rows, column_names := cols, row_count := rows.length,
      status := lit "success", error_message := none }

/-! ### Remaining QueryValidator passes (src/rag/sql/validator.py) -/

/-- Case-insensitive match of the literal `FROM` at the head. -/
def stripFROM : Str → Option Str
  | c1 :: c2 :: c3 :: c4 :: r =>
    if c1.toUpper = 'F' ∧ c2.toUpper = 'R' ∧ c3.toUpper = 'O' ∧ c4.toUpper = 'M' then some r
    else none
  | _ => none

/-- Case-insensitive match of the literal `JOIN` at the head. -/
def stripJOIN : Str → Option Str
  | c1 :: c2 :: c3 :: c4 :: r =>
    if c1.toUpper = 'J' ∧ c2.toUpper = 'O' ∧ c3.toUpper = 'I' ∧ c4.toUpper = 'N' then some r
    else none
  | _ => none

/-- Head match of `KW\s+(\w+)` for a keyword matcher `kw`: the captured
word and the rest. -/
def matchKwWordAt (kw : Str → Option Str) (s : Str) : Option (Str × Str) :=
  match kw s with
  | none => none
  | some r =>
    if (r.takeWhile pyIsSpace).isEmpty then none
    else
      if ((r.dropWhile pyIsSpace).takeWhile pyIsWordChar).isEmpty then none
      else some ((r.dropWhile pyIsSpace).takeWhile pyIsWordChar,
        (r.dropWhile pyIsSpace).dropWhile pyIsWordChar)

/-- Fueled core of `re.findall(r'KW\s+(\w+)', s, re.IGNORECASE)`. -/
def findAllKwWordF (kw : Str → Option Str) : Nat → Str → List Str
  | 0, _ => []
  | _ + 1, [] => []
  | f + 1, c :: t =>
    match matchKwWordAt kw (c :: t) with
    | some (w, rest) => w :: findAllKwWordF kw f rest
    | none => findAllKwWordF kw f t

/-- Python `re.findall(r'KW\s+(\w+)', s, re.IGNORECASE)`: the captured
words of all non-overlapping leftmost matches. -/
def findAllKwWord (kw : Str → Option Str) (s : Str) : List Str := findAllKwWordF kw s.length s

/-- Embedding of `QueryValidator._extract_tables`: words following FROM,
then words following JOIN. -/
def extract_tables (query : Str) : List Str :=
  findAllKwWord stripFROM query ++ findAllKwWord stripJOIN query

/-- A table of the `DatabaseSchema` schema object (fields observed by the
validator). -/
structure SchemaTableT where
  table_name : Str
  columns : List Str
deriving DecidableEq

/-- The `DatabaseSchema` schema object (fields observed by the validator). -/
structure DatabaseSchemaT where
  tables : List SchemaTableT
deriving DecidableEq

/-- Embedding of `QueryValidator._validate_schema_compatibility`.  The
SELECT-clause column analysis of the source only emits debug logs and
contributes no error, so it does not appear in the result. -/
def validate_schema_compatibility (schema : DatabaseSchemaT) (query : Str) : List Str :=
  (extract_tables query).filterMap (fun t =>
    if schema.tables.any (fun st => pyLower st.table_name == pyLower t) then none
    else some (lit "Table " ++ t ++ lit " not found in schema"))

/-- The validator's dangerous keyword list (note: six keywords only). -/
def safety_keywords : List Str :=
  [lit "DROP", lit "DELETE", lit "INSERT", lit "UPDATE", lit "ALTER", lit "CREATE"]

/-- Head match of the regex `'?\s*;\s*T` where `T` is a comment opener:
optional quote, optional whitespace, a semicolon, optional whitespace,
then the opener. -/
def matchSemiCommentAt (term : Str) (s : Str) : Bool :=
  match (if s.head? = some quoteChar then s.tail else s).dropWhile pyIsSpace with
  | c :: r => if c = semiChar then term.isPrefixOf (r.dropWhile pyIsSpace) else false
  | [] => false

/-- Head match of the always-true-condition regex
`OR\s+'?1'?\s*=\s*'?1'?` (on upper-cased text). -/
def matchOrTautAt (s : Str) : Bool :=
  match s with
  | 'O' :: 'R' :: r =>
    if (r.takeWhile pyIsSpace).isEmpty then false
    else
      match (if (r.dropWhile pyIsSpace).head? = some quoteChar
             then (r.dropWhile pyIsSpace).tail else r.dropWhile pyIsSpace) with
      | '1' :: r3 =>
        match ((if r3.head? = some quoteChar then r3.tail else r3).dropWhile pyIsSpace) with
        | '=' :: r6 =>
          match (if (r6.dropWhile pyIsSpace).head? = some quoteChar
                 then (r6.dropWhile pyIsSpace).tail else r6.dropWhile pyIsSpace) with
          | '1' :: _ => true
          | _ => false
        | _ => false
      | _ => false
  | _ => false

/-- Head match of the regex `UNION\s+SELECT` (on upper-cased text). -/
def matchUnionSelectAt (s : Str) : Bool :=
  match s with
  | 'U' :: 'N' :: 'I' :: 'O' :: 'N' :: r =>
    if (r.takeWhile pyIsSpace).isEmpty then false
    else (lit "SELECT").isPrefixOf (r.dropWhile pyIsSpace)
  | _ => false

/-- Python `re.search` truthiness: the head matcher succeeds at some
position. -/
def anyPos (p : Str → Bool) : Str → Bool
  | [] => p []
  | c :: t => p (c :: t) || anyPos p t

/-- Embedding of `QueryValidator._validate_safety`.  Of the four
injection patterns, the UNION-SELECT one is only logged (the source
branches on `"UNION" in pattern`), so it contributes no error. -/
def validate_safety (query : Str) : List Str :=
  (safety_keywords.filterMap (fun k =>
    if containsSub k (pyUpper query) then
      some (lit "Dangerous keyword " ++ k ++ lit " not allowed")
    else none))
  ++ ((if anyPos (matchSemiCommentAt ddash) (pyUpper query) then
        [lit "Potential security issue: Comment-based injection attempt"] else [])
    ++ (if anyPos (matchSemiCommentAt copen) (pyUpper query) then
        [lit "Potential security issue: Block comment injection attempt"] else [])
    ++ (if anyPos matchOrTautAt (pyUpper query) then
        [lit "Potential security issue: Always-true condition"] else []))
  ++ (if 10000 < query.length then [lit "Query too long (max 10000 characters)"] else [])

/-- Embedding of `QueryValidator.validate`: syntax, schema compatibility
and safety errors in order; valid iff no error. -/
def validate (schema : DatabaseSchemaT) (sql_query : SQLQueryT) : Bool × List Str :=
  (( validate_syntax sql_query.query_string
    ++ validate_schema_compatibility schema sql_query.query_string
    ++ validate_safety sql_query.query_string).isEmpty,
   validate_syntax sql_query.query_string
    ++ validate_schema_compatibility schema sql_query.query_string
    ++ validate_safety sql_query.query_string)

/-! ### SQLRAGChain (src/chains/sql_rag_chain.py) -/

/-- An attempt outcome the retry loop does not accept: a raised
exception, or a candidate below the confidence threshold that also fails
validation. -/
def attempt_rejected (schema : DatabaseSchemaT) (threshold : ℚ)
    (o : Except Str (Str × Str × ℚ)) : Bool :=
  match o with
  | Except.error _ => true
  | Except.ok (q, _, c) => decide (c < threshold) && !(validate schema ⟨q⟩).1

/-- Core of `SQLRAGChain._generate_query_with_retry`: `i` is the attempt
index, the fuel is the number of attempts left; returns the accepted
candidate (if any) and the number of generator invocations.  The
generator is an oracle from the attempt index to an outcome. -/
def retryLoopF (schema : DatabaseSchemaT) (threshold : ℚ)
    (gen : Nat → Except Str (Str × Str × ℚ)) : Nat → Nat → Option (Str × Str × ℚ) × Nat
  | _, 0 => (none, 0)
  | i, fuel + 1 =>
    match gen i with
    | Except.error _ =>
      if fuel = 0 then (none, 1)
      else ((retryLoopF schema threshold gen (i + 1) fuel).1,
        (retryLoopF schema threshold gen (i + 1) fuel).2 + 1)
    | Except.ok (q, e, c) =>
      if threshold ≤ c then (some (q, e, c), 1)
      else if (validate schema ⟨q⟩).1 then (some (q, e, c), 1)
      else ((retryLoopF schema threshold gen (i + 1) fuel).1,
        (retryLoopF schema threshold gen (i + 1) fuel).2 + 1)

/-- Embedding of `SQLRAGChain._generate_query_with_retry`: up to
`max_retries + 1` attempts starting at index 0. -/
def generate_query_with_retry (schema : DatabaseSchemaT) (threshold : ℚ)
    (gen : Nat → Except Str (Str × Str × ℚ)) (max_retries : Nat) :
    Option (Str × Str × ℚ) × Nat :=
  retryLoopF schema threshold gen 0 (max_retries + 1)

/-- The `SQLRagResponse` schema object (`generated_at`, a wall-clock
datetime, is omitted). -/
structure SQLRagResponseT where
  original_query : Str
  generated_sql : Str
  sql_explanation : Str
  query_result : SQLResultT
  interpretation : Str
  confidence : ℚ
deriving DecidableEq

/-- The oracles a pipeline run depends on: the database schema, the
schema-retrieval step (which may raise), the generator, the backend
connector, the result formatter (which may raise), Python's rendering of
an error list inside an f-string, and the measured execution time. -/
structure ChainEnv where
  schema : DatabaseSchemaT
  retrieval : Except Str Unit
  gen : Nat → Except Str (Str × Str × ℚ)
  conn : Str → Except PyExc ConnResult
  fmt : SQLResultT → Except Str Str
  listRepr : List Str → Str
  elapsed : ℚ

/-- Embedding of `SQLRAGChain.process`.  The second component collects
the queries dispatched to the backend during the run.  Every failure
path of the source (retrieval exception, generation failure, validation
failure, formatter exception) is a branch here; the final catch-all
`except` of the source corresponds to the two exception branches. -/
def process (max_retries : Nat) (threshold : ℚ) (result_limit : Nat)
    (env : ChainEnv) (query : Str) : SQLRagResponseT × List Str :=
  match env.retrieval with
  | Except.error e =>
    ({ original_query := query, generated_sql := [], sql_explanation := e,
       query_result :=
        { query := [], rows := [], column_names := [], row_count := 0,
          execution_time_ms := 0, status := lit "error", error_message := some e },
       interpretation := lit "Error: " ++ e, confidence := 0 }, [])
  | Except.ok _ =>
    match generate_query_with_retry env.schema threshold env.gen max_retries with
    | (none, _) =>
      ({ original_query := query, generated_sql := [],
         sql_explanation := lit "Could not generate valid SQL query after retries",
         query_result :=
          { query := [], rows := [], column_names := [], row_count := 0,
            execution_time_ms := 0, status := lit "failed", error_message := none },
         interpretation := lit "Query generation failed", confidence := 0 }, [])
    | (some (gq, expl, conf), _) =>
      if (validate env.schema ⟨gq⟩).1 = false then
        ({ original_query := query, generated_sql := gq, sql_explanation := expl,
           query_result :=
            { query := gq, rows := [], column_names := [], row_count := 0,
              execution_time_ms := 0, status := lit "validation_failed", error_message := none },
           interpretation := lit "Query validation failed: "
             ++ env.listRepr (validate env.schema ⟨gq⟩).2,
           confidence := conf }, [])
      else
        match env.fmt (execute result_limit true env.conn env.elapsed ⟨gq⟩).1 with
        | Except.error e =>
          ({ original_query := query, generated_sql := [], sql_explanation := e,
             query_result :=
              { query := [], rows := [], column_names := [], row_count := 0,
                execution_time_ms := 0, status := lit "error", error_message := some e },
             interpretation := lit "Error: " ++ e, confidence := 0 },
           (execute result_limit true env.conn env.elapsed ⟨gq⟩).2)
        | Except.ok f =>
          ({ original_query := query, generated_sql := gq, sql_explanation := expl,
             query_result := (execute result_limit true env.conn env.elapsed ⟨gq⟩).1,
             interpretation := f, confidence := conf },
           (execute result_limit true env.conn env.elapsed ⟨gq⟩).2)

/-- The end-to-end scenario schema: a single table `users(id, name, email)`. -/
def schema9 : DatabaseSchemaT := ⟨[⟨lit "users", [lit "id", lit "name", lit "email"]⟩]⟩

/-- The stubbed LLM output of the end-to-end scenario. -/
def llm9 : Str := lit "```sql\nSELECT * FROM users\n```"

/-- The end-to-end scenario environment: the generation oracle returns
the parsed stub with confidence `c` (the honest value of `c` is
established separately), the backend succeeds with one row. -/
def env9 (c : ℚ) : ChainEnv :=
  { schema := schema9, retrieval := Except.ok (),
    gen := fun _ => Except.ok (lit "SELECT * FROM users", [], c),
    conn := fun _ => Except.ok ⟨[[(lit "id", lit "1")]], [lit "id"], 1, lit "success", none⟩,
    fmt := fun r => Except.ok r.status,
    listRepr := fun _ => [],
    elapsed := 0 }

/-- A run whose generator always returns a high-confidence candidate
with unbalanced parentheses (accepted on confidence, then failing
validation). -/
def env4 : ChainEnv :=
  { schema := ⟨[]⟩, retrieval := Except.ok (),
    gen := fun _ => Except.ok (lit "SELECT (1", [], mkRat 7 10),
    conn := fun _ => Except.ok ⟨[], [], 0, lit "success", none⟩,
    fmt := fun r => Except.ok r.status,
    listRepr := fun _ => [],
    elapsed := 0 }

/-- A run whose generator raises on every attempt. -/
def env_genfail : ChainEnv :=
  { schema := ⟨[]⟩, retrieval := Except.ok (),
    gen := fun _ => Except.error (lit "llm unavailable"),
    conn := fun _ => Except.ok ⟨[], [], 0, lit "success", none⟩,
    fmt := fun r => Except.ok r.status,
    listRepr := fun _ => [],
    elapsed := 0 }

/-- A run whose generator always returns a low-confidence candidate that
also fails validation (every attempt rejected). -/
def env_rej : ChainEnv :=
  { schema := ⟨[]⟩, retrieval := Except.ok (),
    gen := fun _ => Except.ok (lit "SELECT (1", [], mkRat 1 10),
    conn := fun _ => Except.ok ⟨[], [], 0, lit "success", none⟩,
    fmt := fun r => Except.ok r.status,
    listRepr := fun _ => [],
    elapsed := 0 }

/-! ### Helper lemmas -/

/-- Characters are determined by their codepoints. -/
theorem char_eq_of_toNat_eq {c d : Char} (h : c.toNat = d.toNat) : c = d :=
  Char.eq_of_val_eq (UInt32.ext h)

/-- Numeric characterisation of the whitespace test. -/
theorem pyIsSpace_iff {c : Char} :
    pyIsSpace c = true ↔ (c.toNat = 32 ∨ c.toNat = 9 ∨ c.toNat = 10
      ∨ c.toNat = 13 ∨ c.toNat = 11 ∨ c.toNat = 12) := by
  unfold pyIsSpace
  simp only [Bool.or_eq_true, decide_eq_true_eq]
  tauto

/-- Numeric characterisation of the digit test. -/
theorem pyIsDigit_iff {c : Char} :
    pyIsDigit c = true ↔ (48 ≤ c.toNat ∧ c.toNat ≤ 57) := by
  unfold pyIsDigit
  simp [Bool.and_eq_true, decide_eq_true_eq]

/-- Codepoint of `Char.toUpper` on a lowercase letter. -/
theorem toUpper_toNat_of_lower {c : Char} (h : 97 ≤ c.toNat ∧ c.toNat ≤ 122) :
    (c.toUpper).toNat = c.toNat - 32 := by
  unfold Char.toUpper
  rw [if_pos h]
  have hv : Nat.isValidChar (c.toNat - 32) := by
    left
    omega
  unfold Char.ofNat
  rw [dif_pos hv]
  rfl

/-- `Char.toUpper` fixes everything outside the lowercase range. -/
theorem toUpper_eq_self_of_not_lower {c : Char} (h : ¬ (97 ≤ c.toNat ∧ c.toNat ≤ 122)) :
    c.toUpper = c := by
  unfold Char.toUpper
  rw [if_neg]
  omega

/-- Uppercasing preserves whitespace-ness. -/
theorem pyIsSpace_toUpper (c : Char) : pyIsSpace c.toUpper = pyIsSpace c := by
  by_cases h : 97 ≤ c.toNat ∧ c.toNat ≤ 122
  · have hu := toUpper_toNat_of_lower h
    have h1 : pyIsSpace c.toUpper = false := by
      rw [← Bool.not_eq_true]
      rw [pyIsSpace_iff]
      omega
    have h2 : pyIsSpace c = false := by
      rw [← Bool.not_eq_true]
      rw [pyIsSpace_iff]
      omega
    rw [h1, h2]
  · rw [toUpper_eq_self_of_not_lower h]

/-- Uppercasing preserves digit-ness. -/
theorem pyIsDigit_toUpper (c : Char) : pyIsDigit c.toUpper = pyIsDigit c := by
  by_cases h : 97 ≤ c.toNat ∧ c.toNat ≤ 122
  · have hu := toUpper_toNat_of_lower h
    have h1 : pyIsDigit c.toUpper = false := by
      rw [← Bool.not_eq_true]
      rw [pyIsDigit_iff]
      omega
    have h2 : pyIsDigit c = false := by
      rw [← Bool.not_eq_true]
      rw [pyIsDigit_iff]
      omega
    rw [h1, h2]
  · rw [toUpper_eq_self_of_not_lower h]

/-- `Char.toUpper` fixes digits. -/
theorem toUpper_of_digit {c : Char} (h : pyIsDigit c = true) : c.toUpper = c := by
  apply toUpper_eq_self_of_not_lower
  rw [pyIsDigit_iff] at h
  omega

/-- `Char.toUpper` is idempotent. -/
theorem toUpper_toUpper (c : Char) : c.toUpper.toUpper = c.toUpper := by
  by_cases h : 97 ≤ c.toNat ∧ c.toNat ≤ 122
  · have hu := toUpper_toNat_of_lower h
    apply toUpper_eq_self_of_not_lower
    omega
  · rw [toUpper_eq_self_of_not_lower h, toUpper_eq_self_of_not_lower h]

/-- Python `in` agrees with the infix relation. -/
theorem containsSub_iff {pat : Str} : ∀ {s : Str}, containsSub pat s = true ↔ pat <:+: s := by
  intro s
  induction s with
  | nil =>
    unfold containsSub
    rw [List.isEmpty_iff, List.infix_nil]
  | cons c t ih =>
    unfold containsSub
    rw [Bool.or_eq_true, List.isPrefixOf_iff_prefix, ih, List.infix_cons_iff]

/-- An occurrence of a pattern free of the dropped predicate survives
`dropWhile`. -/
theorem infix_dropWhile {p : Char → Bool} {pat : Str}
    (hsp : ∀ c ∈ pat, p c = false) (hne : pat ≠ []) :
    ∀ {s : Str}, pat <:+: s → pat <:+: s.dropWhile p := by
  intro s
  induction s with
  | nil => exact fun h => by rw [List.infix_nil] at h; exact absurd h hne
  | cons c t ih =>
    intro h
    rcases List.infix_cons_iff.mp h with hpre | hinf
    · have hc : p c = false := by
        apply hsp
        rcases pat with _ | ⟨a, pat'⟩
        · exact absurd rfl hne
        · have := List.cons_prefix_cons.mp hpre
          rw [this.1]
          exact List.mem_cons_self _ _
      rw [List.dropWhile_cons_of_neg (by rw [hc]; exact Bool.false_ne_true)]
      exact List.IsPrefix.isInfix hpre
    · by_cases hc : p c = true
      · rw [List.dropWhile_cons_of_pos hc]
        exact ih hinf
      · rw [List.dropWhile_cons_of_neg hc]
        exact List.infix_cons hinf

/-- An occurrence of a whitespace-free pattern survives `strip`. -/
theorem infix_pyStrip {pat : Str} (hsp : ∀ c ∈ pat, pyIsSpace c = false) (hne : pat ≠ [])
    {s : Str} (h : pat <:+: s) : pat <:+: pyStrip s := by
  unfold pyStrip pyLstrip pyRstrip
  apply infix_dropWhile hsp hne
  rw [← List.reverse_infix]
  rw [List.reverse_reverse]
  apply infix_dropWhile (fun c hc => hsp c (List.mem_reverse.mp hc))
  · intro hc
    rw [← List.length_eq_zero] at hc
    rw [List.length_reverse, List.length_eq_zero] at hc
    exact hne hc
  · rw [List.reverse_infix]
    exact h

/-- Upper-casing commutes with `strip`. -/
theorem pyStrip_pyUpper (s : Str) : pyStrip (pyUpper s) = pyUpper (pyStrip s) := by
  have hfun : (pyIsSpace ∘ Char.toUpper) = pyIsSpace := funext pyIsSpace_toUpper
  unfold pyStrip pyLstrip pyRstrip pyUpper
  rw [← List.map_reverse, List.dropWhile_map, hfun, ← List.map_reverse, List.dropWhile_map, hfun]

/-- Membership survives `dropWhile` when the predicate fails on the element. -/
theorem mem_dropWhile_of_mem {p : Char → Bool} {c : Char} :
    ∀ {l : Str}, c ∈ l → p c = false → c ∈ l.dropWhile p := by
  intro l
  induction l with
  | nil => intro h _; cases h
  | cons a t ih =>
    intro h hp
    by_cases ha : p a = true
    · rw [List.dropWhile_cons_of_pos ha]
      rcases List.mem_cons.mp h with rfl | ht
      · rw [hp] at ha; cases ha
      · exact ih ht hp
    · rw [List.dropWhile_cons_of_neg ha]
      exact h

/-- A non-whitespace member of a string survives Python `strip`. -/
theorem mem_pyStrip_of_mem {c : Char} {s : Str}
    (h : c ∈ s) (hc : pyIsSpace c = false) : c ∈ pyStrip s := by
  unfold pyStrip pyLstrip pyRstrip
  apply mem_dropWhile_of_mem _ hc
  rw [List.mem_reverse]
  apply mem_dropWhile_of_mem _ hc
  rw [List.mem_reverse]
  exact h

/-! ### Theorems for the claims -/

/-- C7.  The generator's confidence estimate equals the specification's
formula: 0.5, plus 0.2 for a candidate beginning with SELECT, plus 0.15
times the fraction of retrieved tables appearing in the candidate (0
when no retrieved table appears), plus 0.1 when FROM appears, minus 0.1
when an inline or block comment marker appears, clamped to [0,1]. -/
theorem C7_confidence_formula (sql : Str) (relevant_tables : List Str) :
    estimate_confidence sql relevant_tables = confidence_formula sql relevant_tables := by
  unfold estimate_confidence confidence_formula
  set cnt := (relevant_tables.filter
    (fun t => containsSub (pyUpper t) (pyUpper sql))).length with hcnt
  have hle : cnt ≤ relevant_tables.length := List.length_filter_le _ _
  by_cases h0 : 0 < cnt
  · have hne : relevant_tables.length ≠ 0 := by omega
    have hpos : (0 : ℚ) < (relevant_tables.length : ℚ) := by
      exact_mod_cast Nat.pos_of_ne_zero hne
    have hfrac : ((cnt : ℚ) / (relevant_tables.length : ℚ)) ≤ 1 := by
      rw [div_le_one hpos]
      exact_mod_cast hle
    have hmin : min ((cnt : ℚ) / (relevant_tables.length : ℚ)) 1
        = (cnt : ℚ) / (relevant_tables.length : ℚ) := min_eq_left hfrac
    simp only [if_pos h0, hmin, if_neg (by omega : ¬ cnt = 0)]
    split <;> split <;> split <;> ring
  · have hz : cnt = 0 := by omega
    simp only [if_neg h0, if_pos hz, mul_zero, add_zero]
    split <;> split <;> split <;> ring

/-- C8 counterexample.  The query `SELECT 1; SELECT 2` contains a
mid-query semicolon separating two statements, yet the syntax pass
returns no error, contradicting the claim that a semicolon anywhere
other than at the very end is rejected. -/
theorem C8_cex_mid_semicolon :
    validate_syntax (lit "SELECT 1; SELECT 2") = []
    ∧ (lit "SELECT 1; SELECT 2").count semiChar = 1 := by
  constructor <;> decide

/-- C8 amended.  The syntax pass reports the multiple-statement error
exactly when the query contains more than one semicolon; the position of
a single semicolon is not examined. -/
theorem C8_semicolon_rule (query : Str) :
    (lit "Multiple SQL statements not allowed") ∈ validate_syntax query
      ↔ 1 < query.count semiChar := by
  unfold validate_syntax
  constructor
  · intro h
    by_cases he : pyStrip query = []
    · rw [if_pos he] at h
      simp only [List.mem_singleton] at h
      exact absurd h (by decide)
    · rw [if_neg he] at h
      rcases List.mem_append.mp h with h123 | h4
      · rcases List.mem_append.mp h123 with h12 | h3
        · rcases List.mem_append.mp h12 with h1 | h2
          · exfalso
            revert h1
            split
            · intro h1; cases h1
            · intro h1
              rcases List.mem_singleton.mp h1 with heq
              have hM : (lit "Multiple SQL statements not allowed").head? = some 'M' := rfl
              rw [heq] at hM
              have hQ : ((lit "Query must start with SELECT or WITH, got: ")
                  ++ query.take 20).head? = some 'Q' := rfl
              rw [hM] at hQ
              cases hQ
          · exfalso
            revert h2
            split
            · intro h2; cases h2
            · intro h2
              have := List.mem_singleton.mp h2
              exact absurd this (by decide)
        · exfalso
          revert h3
          split
          · intro h3; cases h3
          · intro h3
            have := List.mem_singleton.mp h3
            exact absurd this (by decide)
      · revert h4
        split
        · rename_i hcount
          intro _
          exact hcount
        · intro h4; cases h4
  · intro h
    by_cases he : pyStrip query = []
    · exfalso
      have h2 : 0 < query.count semiChar := by omega
      have h3 : semiChar ∈ query := by
        by_contra hmem
        rw [List.count_eq_zero_of_not_mem hmem] at h2
        omega
      have h4 : semiChar ∈ pyStrip query := mem_pyStrip_of_mem h3 (by decide)
      rw [he] at h4
      cases h4
    · rw [if_neg he]
      refine List.mem_append.mpr (Or.inr ?_)
      rw [if_pos h]
      exact List.mem_singleton.mpr rfl

/-- Every dangerous keyword is nonempty, whitespace-free and distinct
from SELECT. -/
theorem dangerous_keywords_wf :
    ∀ k ∈ dangerous_keywords,
      k ≠ [] ∧ (∀ c ∈ k, pyIsSpace c = false) ∧ (k != lit "SELECT") = true := by
  decide

/-- C1.  Whenever the submitted query string contains a dangerous keyword
(case-insensitively, anywhere in the text), `QueryExecutor.execute`
returns an error-status result and never dispatches anything to the
backend connector. -/
theorem C1_executor_blocks_dangerous (max_rows : Nat) (eso : Bool)
    (conn : Str → Except PyExc ConnResult) (elapsed : ℚ) (q : SQLQueryT)
    (h : ∃ k ∈ dangerous_keywords, containsSub k (pyUpper q.query_string) = true) :
    (execute max_rows eso conn elapsed q).1.status = lit "error"
    ∧ (execute max_rows eso conn elapsed q).2 = [] := by
  obtain ⟨k, hk, hck⟩ := h
  obtain ⟨hne, hsp, hsel⟩ := dangerous_keywords_wf k hk
  have hstrip : containsSub k (pyUpper (pyStrip q.query_string)) = true := by
    rw [containsSub_iff] at hck ⊢
    rw [← pyStrip_pyUpper]
    exact infix_pyStrip hsp hne hck
  cases hv : validate_query eso q.query_string with
  | none =>
    exfalso
    unfold validate_query at hv
    split at hv
    · exact Option.noConfusion hv
    · split at hv
      · exact Option.noConfusion hv
      · rename_i heq
        have hnp := List.find?_eq_none.mp heq k hk
        rw [hstrip, hsel] at hnp
        simp at hnp
  | some m =>
    unfold execute
    rw [hv]
    exact ⟨rfl, rfl⟩

/-- C1 witness: the executor rejects `DROP TABLE users` without touching
the backend. -/
theorem C1_witness :
    (∃ k ∈ dangerous_keywords, containsSub k (pyUpper (lit "DROP TABLE users")) = true)
    ∧ ((execute 1000 true (fun _ => Except.ok ⟨[], [], 0, lit "success", none⟩) 0
        ⟨lit "DROP TABLE users"⟩).1.status = lit "error"
      ∧ (execute 1000 true (fun _ => Except.ok ⟨[], [], 0, lit "success", none⟩) 0
        ⟨lit "DROP TABLE users"⟩).2 = []) :=
  ⟨by decide,
   C1_executor_blocks_dangerous 1000 true (fun _ => Except.ok ⟨[], [], 0, lit "success", none⟩)
     0 ⟨lit "DROP TABLE users"⟩ (by decide)⟩

/-- C10.  The `query` field of the result returned by
`QueryExecutor.execute` is always the submitted query string, exactly as
given; the LIMIT-rewritten text is only what is dispatched to the
backend (when anything is dispatched at all). -/
theorem C10_result_query_preserved (max_rows : Nat) (eso : Bool)
    (conn : Str → Except PyExc ConnResult) (elapsed : ℚ) (q : SQLQueryT) :
    (execute max_rows eso conn elapsed q).1.query = q.query_string
    ∧ ((execute max_rows eso conn elapsed q).2 = []
       ∨ (execute max_rows eso conn elapsed q).2 = [add_result_limit max_rows q.query_string]) := by
  unfold execute
  split
  · exact ⟨rfl, Or.inl rfl⟩
  · split
    · exact ⟨rfl, Or.inr rfl⟩
    · exact ⟨rfl, Or.inr rfl⟩
    · exact ⟨rfl, Or.inr rfl⟩

/-- A member of the safety error list makes the whole validation fail and
appears among the returned errors. -/
theorem validate_false_of_safety_mem {schema : DatabaseSchemaT} {q : SQLQueryT} {e : Str}
    (h : e ∈ validate_safety q.query_string) :
    (validate schema q).1 = false ∧ e ∈ (validate schema q).2 := by
  have hmem : e ∈ (validate schema q).2 := by
    unfold validate
    exact List.mem_append.mpr (Or.inr h)
  refine ⟨?_, hmem⟩
  unfold validate
  rw [← Bool.not_eq_true, List.isEmpty_iff]
  intro hc
  unfold validate at hmem
  rw [hc] at hmem
  exact absurd hmem (List.not_mem_nil e)

/-- C2 counterexample.  The query `SELECT GRANT, REVOKE, VACUUM` contains
the claim's keyword GRANT yet passes the whole validation, and the
always-true-tautology pattern alone does make the safety pass contribute
an error (for `SELECT 1 WHERE 1 OR 1=1`), contradicting both halves of
the claim. -/
theorem C2_cex_keywords_and_patterns :
    (validate ⟨[]⟩ ⟨lit "SELECT GRANT, REVOKE, VACUUM"⟩).1 = true
    ∧ containsSub (lit "GRANT") (pyUpper (lit "SELECT GRANT, REVOKE, VACUUM")) = true
    ∧ (lit "GRANT") ∈ dangerous_keywords
    ∧ (validate ⟨[]⟩ ⟨lit "SELECT 1 WHERE 1 OR 1=1"⟩).1 = false
    ∧ validate_safety (lit "SELECT 1 WHERE 1 OR 1=1")
        = [lit "Potential security issue: Always-true condition"] := by
  refine ⟨by decide, by decide, by decide, by decide, by decide⟩

/-- C2 amended.  The validator's safety pass rejects any occurrence of
its six keywords DROP, DELETE, INSERT, UPDATE, ALTER, CREATE (not the
ten of the claim: TRUNCATE, GRANT, REVOKE and VACUUM are not checked)
and queries longer than 10,000 characters; the comment-based
statement-termination patterns and the always-true tautology each
contribute an error of their own; only the UNION-SELECT pattern is
merely logged and never contributes an error. -/
theorem C2_validator_safety (schema : DatabaseSchemaT) (q : SQLQueryT) :
    (∀ k ∈ safety_keywords, containsSub k (pyUpper q.query_string) = true →
      (validate schema q).1 = false
      ∧ (lit "Dangerous keyword " ++ k ++ lit " not allowed") ∈ (validate schema q).2)
    ∧ (10000 < q.query_string.length →
      (validate schema q).1 = false
      ∧ (lit "Query too long (max 10000 characters)") ∈ (validate schema q).2)
    ∧ (anyPos (matchSemiCommentAt ddash) (pyUpper q.query_string) = true →
      (validate schema q).1 = false
      ∧ (lit "Potential security issue: Comment-based injection attempt") ∈ (validate schema q).2)
    ∧ (anyPos (matchSemiCommentAt copen) (pyUpper q.query_string) = true →
      (validate schema q).1 = false
      ∧ (lit "Potential security issue: Block comment injection attempt") ∈ (validate schema q).2)
    ∧ (anyPos matchOrTautAt (pyUpper q.query_string) = true →
      (validate schema q).1 = false
      ∧ (lit "Potential security issue: Always-true condition") ∈ (validate schema q).2)
    ∧ ((∀ k ∈ safety_keywords, containsSub k (pyUpper q.query_string) = false) →
      anyPos (matchSemiCommentAt ddash) (pyUpper q.query_string) = false →
      anyPos (matchSemiCommentAt copen) (pyUpper q.query_string) = false →
      anyPos matchOrTautAt (pyUpper q.query_string) = false →
      q.query_string.length ≤ 10000 →
      validate_safety q.query_string = []) := by
  refine ⟨?_, ?_, ?_, ?_, ?_, ?_⟩
  · intro k hk hc
    apply validate_false_of_safety_mem
    unfold validate_safety
    apply List.mem_append.mpr (Or.inl ?_)
    apply List.mem_append.mpr (Or.inl ?_)
    apply List.mem_filterMap.mpr
    exact ⟨k, hk, by rw [hc]; rfl⟩
  · intro hlen
    apply validate_false_of_safety_mem
    unfold validate_safety
    apply List.mem_append.mpr (Or.inr ?_)
    rw [if_pos hlen]
    exact List.mem_singleton.mpr rfl
  · intro hpat
    apply validate_false_of_safety_mem
    unfold validate_safety
    apply List.mem_append.mpr (Or.inl ?_)
    apply List.mem_append.mpr (Or.inr ?_)
    apply List.mem_append.mpr (Or.inl ?_)
    apply List.mem_append.mpr (Or.inl ?_)
    rw [if_pos hpat]
    exact List.mem_singleton.mpr rfl
  · intro hpat
    apply validate_false_of_safety_mem
    unfold validate_safety
    apply List.mem_append.mpr (Or.inl ?_)
    apply List.mem_append.mpr (Or.inr ?_)
    apply List.mem_append.mpr (Or.inl ?_)
    apply List.mem_append.mpr (Or.inr ?_)
    rw [if_pos hpat]
    exact List.mem_singleton.mpr rfl
  · intro hpat
    apply validate_false_of_safety_mem
    unfold validate_safety
    apply List.mem_append.mpr (Or.inl ?_)
    apply List.mem_append.mpr (Or.inr ?_)
    apply List.mem_append.mpr (Or.inr ?_)
    rw [if_pos hpat]
    exact List.mem_singleton.mpr rfl
  · intro hkw h1 h2 h3 hlen
    unfold validate_safety
    rw [h1, h2, h3]
    rw [List.filterMap_eq_nil_iff.mpr (fun k hk => by rw [hkw k hk]; rfl)]
    rw [if_neg (by omega : ¬ 10000 < q.query_string.length)]
    rfl

/-- C2 witness: the amended statement applied to `DROP TABLE users`
(rejected with its keyword error) and to `SELECT 1 UNION SELECT 2`
(matched by the UNION pattern only, hence no safety error). -/
theorem C2_witness :
    ((validate ⟨[]⟩ ⟨lit "DROP TABLE users"⟩).1 = false
      ∧ (lit "Dangerous keyword " ++ lit "DROP" ++ lit " not allowed")
          ∈ (validate ⟨[]⟩ ⟨lit "DROP TABLE users"⟩).2)
    ∧ validate_safety (lit "SELECT 1 UNION SELECT 2") = [] := by
  refine ⟨(C2_validator_safety ⟨[]⟩ ⟨lit "DROP TABLE users"⟩).1 (lit "DROP")
    (by decide) (by decide), ?_⟩
  exact (C2_validator_safety ⟨[]⟩ ⟨lit "SELECT 1 UNION SELECT 2"⟩).2.2.2.2.2
    (by decide) (by decide) (by decide) (by decide) (by decide)

/-- The retry loop consumes at most as many generator invocations as it
has attempts of fuel. -/
theorem retryLoopF_count_le (schema : DatabaseSchemaT) (threshold : ℚ)
    (gen : Nat → Except Str (Str × Str × ℚ)) :
    ∀ fuel i, (retryLoopF schema threshold gen i fuel).2 ≤ fuel := by
  intro fuel
  induction fuel with
  | zero => intro i; rw [retryLoopF]
  | succ f ih =>
    intro i
    rw [retryLoopF]
    cases hg : gen i with
    | error msg =>
      dsimp only
      split
      · show 1 ≤ f + 1
        omega
      · have := ih (i + 1)
        show (retryLoopF schema threshold gen (i + 1) f).2 + 1 ≤ f + 1
        omega
    | ok t =>
      obtain ⟨q0, e0, c0⟩ := t
      dsimp only
      split
      · show 1 ≤ f + 1
        omega
      · split
        · show 1 ≤ f + 1
          omega
        · have := ih (i + 1)
          show (retryLoopF schema threshold gen (i + 1) f).2 + 1 ≤ f + 1
          omega

/-- Whatever candidate the retry loop returns satisfied the acceptance
condition: confidence at or above the threshold, or passing validation. -/
theorem retryLoopF_accept_cond (schema : DatabaseSchemaT) (threshold : ℚ)
    (gen : Nat → Except Str (Str × Str × ℚ)) :
    ∀ fuel i q e c k, retryLoopF schema threshold gen i fuel = (some (q, e, c), k) →
      threshold ≤ c ∨ (validate schema ⟨q⟩).1 = true := by
  intro fuel
  induction fuel with
  | zero =>
    intro i q e c k h
    rw [retryLoopF] at h
    simp at h
  | succ f ih =>
    intro i q e c k h
    rw [retryLoopF] at h
    cases hg : gen i with
    | error msg =>
      rw [hg] at h
      dsimp only at h
      split at h
      · simp at h
      · simp only [Prod.mk.injEq] at h
        exact ih (i + 1) q e c (retryLoopF schema threshold gen (i + 1) f).2 (by rw [← h.1])
    | ok t =>
      obtain ⟨q0, e0, c0⟩ := t
      rw [hg] at h
      dsimp only at h
      split at h
      · rename_i h1
        simp only [Prod.mk.injEq, Option.some.injEq] at h
        obtain ⟨⟨rfl, rfl, rfl⟩, -⟩ := h
        exact Or.inl h1
      · split at h
        · rename_i h2
          simp only [Prod.mk.injEq, Option.some.injEq] at h
          obtain ⟨⟨rfl, rfl, rfl⟩, -⟩ := h
          exact Or.inr h2
        · simp only [Prod.mk.injEq] at h
          exact ih (i + 1) q e c (retryLoopF schema threshold gen (i + 1) f).2 (by rw [← h.1])

/-- When every attempt in range is rejected, the retry loop gives up. -/
theorem retryLoopF_none_of_rejected (schema : DatabaseSchemaT) (threshold : ℚ)
    (gen : Nat → Except Str (Str × Str × ℚ)) :
    ∀ fuel i, (∀ j, i ≤ j → j < i + fuel → attempt_rejected schema threshold (gen j) = true) →
      (retryLoopF schema threshold gen i fuel).1 = none := by
  intro fuel
  induction fuel with
  | zero => intro i _; rw [retryLoopF]
  | succ f ih =>
    intro i h
    have hi := h i le_rfl (by omega)
    unfold attempt_rejected at hi
    rw [retryLoopF]
    cases hg : gen i with
    | error msg =>
      dsimp only
      split
      · rfl
      · show (retryLoopF schema threshold gen (i + 1) f).1 = none
        exact ih (i + 1) (fun j hj1 hj2 => h j (by omega) (by omega))
    | ok t =>
      obtain ⟨q0, e0, c0⟩ := t
      rw [hg] at hi
      dsimp only at hi
      simp only [Bool.and_eq_true, decide_eq_true_eq, Bool.not_eq_true'] at hi
      dsimp only
      rw [if_neg (not_le.mpr hi.1)]
      rw [hi.2]
      rw [if_neg Bool.false_ne_true]
      show (retryLoopF schema threshold gen (i + 1) f).1 = none
      exact ih (i + 1) (fun j hj1 hj2 => h j (by omega) (by omega))

/-- The first attempt whose candidate meets the acceptance condition is
returned, together with the number of generator invocations so far. -/
theorem retryLoopF_first_accept (schema : DatabaseSchemaT) (threshold : ℚ)
    (gen : Nat → Except Str (Str × Str × ℚ)) :
    ∀ k fuel i q e c, k < fuel →
      (∀ j, i ≤ j → j < i + k → attempt_rejected schema threshold (gen j) = true) →
      gen (i + k) = Except.ok (q, e, c) →
      (threshold ≤ c ∨ (validate schema ⟨q⟩).1 = true) →
      retryLoopF schema threshold gen i fuel = (some (q, e, c), k + 1) := by
  intro k
  induction k with
  | zero =>
    intro fuel i q e c hk hrej hgen hacc
    cases fuel with
    | zero => omega
    | succ f =>
      rw [retryLoopF]
      rw [Nat.add_zero] at hgen
      rw [hgen]
      dsimp only
      rcases hacc with h1 | h2
      · rw [if_pos h1]
      · by_cases h1 : threshold ≤ c
        · rw [if_pos h1]
        · rw [if_neg h1, if_pos h2]
  | succ k ih =>
    intro fuel i q e c hk hrej hgen hacc
    cases fuel with
    | zero => omega
    | succ f =>
      rw [retryLoopF]
      have hi : attempt_rejected schema threshold (gen i) = true :=
        hrej i le_rfl (by omega)
      unfold attempt_rejected at hi
      have hrec : retryLoopF schema threshold gen (i + 1) f = (some (q, e, c), k + 1) := by
        apply ih f (i + 1) q e c (by omega)
          (fun j hj1 hj2 => hrej j (by omega) (by omega))
        · rw [show i + 1 + k = i + (k + 1) from by omega]
          exact hgen
        · exact hacc
      cases hg : gen i with
      | error msg =>
        dsimp only
        rw [if_neg (by omega : ¬ f = 0)]
        rw [hrec]
      | ok t =>
        obtain ⟨q0, e0, c0⟩ := t
        rw [hg] at hi
        dsimp only at hi
        simp only [Bool.and_eq_true, decide_eq_true_eq, Bool.not_eq_true'] at hi
        dsimp only
        rw [if_neg (not_le.mpr hi.1)]
        rw [hi.2]
        rw [if_neg Bool.false_ne_true]
        rw [hrec]

/-- C3.  The retry protocol of `SQLRAGChain`: the generator is invoked at
most `max_retries + 1` times; a returned candidate always meets the
acceptance condition (confidence at or above the threshold, or passing
validation); the first attempt meeting the condition is the one
returned; when every attempt is rejected (including by exceptions) the
loop yields nothing and the pipeline returns the terminal failure
response with confidence 0, empty generated SQL, and no backend
dispatch. -/
theorem C3_retry_protocol (max_retries : Nat) (threshold : ℚ) (result_limit : Nat)
    (env : ChainEnv) (query : Str) :
    (generate_query_with_retry env.schema threshold env.gen max_retries).2 ≤ max_retries + 1
    ∧ (∀ q e c k,
        generate_query_with_retry env.schema threshold env.gen max_retries = (some (q, e, c), k) →
        threshold ≤ c ∨ (validate env.schema ⟨q⟩).1 = true)
    ∧ (∀ i q e c, i ≤ max_retries →
        (∀ j, j < i → attempt_rejected env.schema threshold (env.gen j) = true) →
        env.gen i = Except.ok (q, e, c) →
        (threshold ≤ c ∨ (validate env.schema ⟨q⟩).1 = true) →
        generate_query_with_retry env.schema threshold env.gen max_retries
          = (some (q, e, c), i + 1))
    ∧ ((∀ i, i ≤ max_retries → attempt_rejected env.schema threshold (env.gen i) = true) →
        (generate_query_with_retry env.schema threshold env.gen max_retries).1 = none)
    ∧ ((generate_query_with_retry env.schema threshold env.gen max_retries).1 = none →
        env.retrieval = Except.ok () →
        (process max_retries threshold result_limit env query).1.confidence = 0
        ∧ (process max_retries threshold result_limit env query).1.generated_sql = []
        ∧ (process max_retries threshold result_limit env query).2 = []) := by
  refine ⟨?_, ?_, ?_, ?_, ?_⟩
  · exact retryLoopF_count_le env.schema threshold env.gen (max_retries + 1) 0
  · intro q e c k h
    exact retryLoopF_accept_cond env.schema threshold env.gen (max_retries + 1) 0 q e c k h
  · intro i q e c hi hrej hgen hacc
    apply retryLoopF_first_accept env.schema threshold env.gen i (max_retries + 1) 0 q e c
      (by omega) (fun j hj1 hj2 => hrej j (by omega)) (by rw [Nat.zero_add]; exact hgen) hacc
  · intro h
    exact retryLoopF_none_of_rejected env.schema threshold env.gen (max_retries + 1) 0
      (fun j hj1 hj2 => h j (by omega))
  · intro hnone hret
    have hg2 : generate_query_with_retry env.schema threshold env.gen max_retries
        = (none, (generate_query_with_retry env.schema threshold env.gen max_retries).2) := by
      rw [← hnone]
    unfold process
    rw [hret, hg2]
    exact ⟨rfl, rfl, rfl⟩

/-- C3 witness: with every attempt rejected (low confidence and invalid),
the pipeline returns the terminal failure response without touching the
backend. -/
theorem C3_witness :
    (generate_query_with_retry env_rej.schema (mkRat 1 2) env_rej.gen 2).2 ≤ 3
    ∧ (generate_query_with_retry env_rej.schema (mkRat 1 2) env_rej.gen 2).1 = none
    ∧ (process 2 (mkRat 1 2) 1000 env_rej (lit "list users")).1.confidence = 0
    ∧ (process 2 (mkRat 1 2) 1000 env_rej (lit "list users")).1.generated_sql = []
    ∧ (process 2 (mkRat 1 2) 1000 env_rej (lit "list users")).2 = [] := by
  have h := C3_retry_protocol 2 (mkRat 1 2) 1000 env_rej (lit "list users")
  have hnone := h.2.2.2.1 (by decide)
  have hproc := h.2.2.2.2 hnone rfl
  exact ⟨h.1, hnone, hproc.1, hproc.2.1, hproc.2.2⟩

/-- C4 counterexample.  A candidate accepted on confidence that then
fails validation produces a failing response carrying the candidate SQL
and the original confidence, contradicting the claim that every failing
run has empty `generated_sql` and zero confidence. -/
theorem C4_cex_validation_branch :
    (process 2 (mkRat 1 2) 1000 env4 (lit "count users")).1.query_result.status
      = lit "validation_failed"
    ∧ (process 2 (mkRat 1 2) 1000 env4 (lit "count users")).1.generated_sql = lit "SELECT (1"
    ∧ (process 2 (mkRat 1 2) 1000 env4 (lit "count users")).1.generated_sql ≠ []
    ∧ (process 2 (mkRat 1 2) 1000 env4 (lit "count users")).1.confidence = mkRat 7 10
    ∧ (mkRat 7 10 : ℚ) ≠ 0 := by
  refine ⟨by decide, by decide, by decide, by decide, by decide⟩

/-- C4 amended.  `process` is a total function (it never raises: every
outcome, including raised exceptions of its steps, is mapped to a
response).  On a generation failure, a retrieval exception or a
formatter exception the response carries empty SQL, zero confidence and
a failure description; on a validation failure the response instead
carries the candidate SQL and its confidence, with the interpretation
carrying the failure description. -/
theorem C4_failure_response_shape (max_retries : Nat) (threshold : ℚ) (result_limit : Nat)
    (env : ChainEnv) (query : Str) :
    (∀ e, env.retrieval = Except.error e →
      (process max_retries threshold result_limit env query).1.generated_sql = []
      ∧ (process max_retries threshold result_limit env query).1.confidence = 0
      ∧ (process max_retries threshold result_limit env query).1.interpretation
          = lit "Error: " ++ e)
    ∧ (env.retrieval = Except.ok () →
      (generate_query_with_retry env.schema threshold env.gen max_retries).1 = none →
      (process max_retries threshold result_limit env query).1.generated_sql = []
      ∧ (process max_retries threshold result_limit env query).1.confidence = 0
      ∧ (process max_retries threshold result_limit env query).1.interpretation
          = lit "Query generation failed")
    ∧ (∀ q1 e1 c1 k, env.retrieval = Except.ok () →
      generate_query_with_retry env.schema threshold env.gen max_retries
        = (some (q1, e1, c1), k) →
      (validate env.schema ⟨q1⟩).1 = false →
      (process max_retries threshold result_limit env query).1.generated_sql = q1
      ∧ (process max_retries threshold result_limit env query).1.confidence = c1
      ∧ ∃ rest, (process max_retries threshold result_limit env query).1.interpretation
          = lit "Query validation failed: " ++ rest)
    ∧ (∀ q1 e1 c1 k e2, env.retrieval = Except.ok () →
      generate_query_with_retry env.schema threshold env.gen max_retries
        = (some (q1, e1, c1), k) →
      (validate env.schema ⟨q1⟩).1 = true →
      env.fmt (execute result_limit true env.conn env.elapsed ⟨q1⟩).1 = Except.error e2 →
      (process max_retries threshold result_limit env query).1.generated_sql = []
      ∧ (process max_retries threshold result_limit env query).1.confidence = 0
      ∧ (process max_retries threshold result_limit env query).1.interpretation
          = lit "Error: " ++ e2) := by
  refine ⟨?_, ?_, ?_, ?_⟩
  · intro e hret
    unfold process
    rw [hret]
    exact ⟨rfl, rfl, rfl⟩
  · intro hret hnone
    have hg2 : generate_query_with_retry env.schema threshold env.gen max_retries
        = (none, (generate_query_with_retry env.schema threshold env.gen max_retries).2) := by
      rw [← hnone]
    unfold process
    rw [hret, hg2]
    exact ⟨rfl, rfl, rfl⟩
  · intro q1 e1 c1 k hret hg hval
    unfold process
    rw [hret, hg]
    dsimp only
    rw [if_pos hval]
    exact ⟨rfl, rfl, _, rfl⟩
  · intro q1 e1 c1 k e2 hret hg hval hfmt
    unfold process
    rw [hret, hg]
    dsimp only
    rw [if_neg (by rw [hval]; exact fun h => Bool.noConfusion h)]
    rw [hfmt]
    exact ⟨rfl, rfl, rfl⟩

/-- C4 witness: the amended statement applied to the always-raising
generator run. -/
theorem C4_witness :
    (process 2 (mkRat 1 2) 1000 env_genfail (lit "list users")).1.generated_sql = []
    ∧ (process 2 (mkRat 1 2) 1000 env_genfail (lit "list users")).1.confidence = 0
    ∧ (process 2 (mkRat 1 2) 1000 env_genfail (lit "list users")).1.interpretation
        = lit "Query generation failed" :=
  (C4_failure_response_shape 2 (mkRat 1 2) 1000 env_genfail (lit "list users")).2.1
    rfl (by decide)

/-- C5 counterexample.  The orchestrator's generation-failure branch
constructs an `SQLResult` whose status is `failed`, which is neither
`success` nor `error`, contradicting the claimed status invariant. -/
theorem C5_cex_failed_status :
    (process 2 (mkRat 1 2) 1000 env_genfail (lit "list users")).1.query_result.status
      = lit "failed"
    ∧ lit "failed" ≠ lit "success"
    ∧ lit "failed" ≠ lit "error" := by
  refine ⟨by decide, by decide, by decide⟩

/-- C5 amended.  Every `SQLResult` produced by the executor over the real
connector conversion has status `success` or `error`; the orchestrator's
failure branches, however, construct results with status `failed`
(generation failure) and `validation_failed` (validation failure), which
the unconstrained `status: str` field of the schema admits. -/
theorem C5_status_discipline (result_limit : Nat) (eso : Bool)
    (backend : Str → Except Str (List (List (Str × Str)) × List Str)) (elapsed : ℚ)
    (q : SQLQueryT) (max_retries : Nat) (threshold : ℚ) (env : ChainEnv) (query : Str) :
    ((execute result_limit eso (fun s => Except.ok (connector_execute backend s)) elapsed q).1.status
        = lit "success"
      ∨ (execute result_limit eso (fun s => Except.ok (connector_execute backend s)) elapsed q).1.status
        = lit "error")
    ∧ (env.retrieval = Except.ok () →
        (generate_query_with_retry env.schema threshold env.gen max_retries).1 = none →
        (process max_retries threshold result_limit env query).1.query_result.status
          = lit "failed")
    ∧ (∀ q1 e1 c1 k, env.retrieval = Except.ok () →
        generate_query_with_retry env.schema threshold env.gen max_retries
          = (some (q1, e1, c1), k) →
        (validate env.schema ⟨q1⟩).1 = false →
        (process max_retries threshold result_limit env query).1.query_result.status
          = lit "validation_failed") := by
  refine ⟨?_, ?_, ?_⟩
  · unfold execute
    cases hv : validate_query eso q.query_string with
    | some m => right; rfl
    | none =>
      dsimp only
      unfold connector_execute
      cases hb : backend (add_result_limit result_limit q.query_string) with
      | error e => right; rfl
      | ok pr =>
        obtain ⟨rows, cols⟩ := pr
        left
        rfl
  · intro hret hnone
    have hg2 : generate_query_with_retry env.schema threshold env.gen max_retries
        = (none, (generate_query_with_retry env.schema threshold env.gen max_retries).2) := by
      rw [← hnone]
    unfold process
    rw [hret, hg2]
  · intro q1 e1 c1 k hret hg hval
    unfold process
    rw [hret, hg]
    dsimp only
    rw [if_pos hval]

/-- C5 witness: the executor statuses on a concrete succeeding backend,
and both orchestrator failure branches at concrete runs. -/
theorem C5_witness :
    ((execute 1000 true
        (fun s => Except.ok (connector_execute (fun _ => Except.ok ([], [])) s)) 0
        ⟨lit "SELECT 1"⟩).1.status = lit "success"
      ∨ (execute 1000 true
        (fun s => Except.ok (connector_execute (fun _ => Except.ok ([], [])) s)) 0
        ⟨lit "SELECT 1"⟩).1.status = lit "error")
    ∧ (process 2 (mkRat 1 2) 1000 env_genfail (lit "list users")).1.query_result.status
        = lit "failed"
    ∧ (process 2 (mkRat 1 2) 1000 env4 (lit "count users")).1.query_result.status
        = lit "validation_failed" := by
  refine ⟨(C5_status_discipline 1000 true (fun _ => Except.ok ([], [])) 0 ⟨lit "SELECT 1"⟩
      2 (mkRat 1 2) env_genfail (lit "list users")).1, ?_, ?_⟩
  · exact (C5_status_discipline 1000 true (fun _ => Except.ok ([], [])) 0 ⟨lit "SELECT 1"⟩
      2 (mkRat 1 2) env_genfail (lit "list users")).2.1 rfl (by decide)
  · exact (C5_status_discipline 1000 true (fun _ => Except.ok ([], [])) 0 ⟨lit "SELECT 1"⟩
      2 (mkRat 1 2) env4 (lit "count users")).2.2 (lit "SELECT (1") [] (mkRat 7 10) 1
      rfl (by decide) (by decide)

/-- The heuristic confidence of the end-to-end scenario's candidate:
0.5 (base) + 0.2 (SELECT) + 0.15 (all retrieved tables referenced)
+ 0.1 (FROM) = 0.95. -/
theorem conf9_value :
    estimate_confidence (lit "SELECT * FROM users") [lit "users"] = mkRat 19 20 := by
  unfold estimate_confidence
  dsimp only
  rw [show (lit "SELECT").isPrefixOf (pyUpper (lit "SELECT * FROM users")) = true from rfl]
  rw [show (([lit "users"].filter
    (fun t => containsSub (pyUpper t) (pyUpper (lit "SELECT * FROM users")))).length) = 1 from rfl]
  rw [show containsSub (lit "FROM") (pyUpper (lit "SELECT * FROM users")) = true from rfl]
  rw [show (containsSub ddash (lit "SELECT * FROM users")
    || containsSub copen (lit "SELECT * FROM users")) = false from rfl]
  norm_num [Rat.mkRat_eq_div]

/-- C9 counterexample.  In the end-to-end scenario the pipeline response
carries `generated_sql = "SELECT * FROM users"` without the injected
LIMIT clause, contradicting the claimed
`generated_sql = "SELECT * FROM users LIMIT <max_rows>"`. -/
theorem C9_cex_generated_sql_without_limit :
    parse_response llm9 = lit "SELECT * FROM users"
    ∧ estimate_confidence (lit "SELECT * FROM users") [lit "users"] = mkRat 19 20
    ∧ (process 2 (mkRat 1 2) 1000 (env9 (mkRat 19 20)) (lit "show me all users")).1.generated_sql
        ≠ lit "SELECT * FROM users LIMIT 1000" :=
  ⟨by decide, conf9_value, by decide⟩

/-- C9 amended.  In the end-to-end scenario (schema `users(id, name,
email)`, query "show me all users", generation stubbed to a fenced
`SELECT * FROM users`), the pipeline succeeds with confidence 0.95 ≥
0.5, the response's `generated_sql` is exactly `SELECT * FROM users`
(no LIMIT clause), and the LIMIT-capped text is what is dispatched to
the backend. -/
theorem C9_scenario_resolved :
    parse_response llm9 = lit "SELECT * FROM users"
    ∧ estimate_confidence (lit "SELECT * FROM users") [lit "users"] = mkRat 19 20
    ∧ (process 2 (mkRat 1 2) 1000 (env9 (mkRat 19 20)) (lit "show me all users")).1.generated_sql
        = lit "SELECT * FROM users"
    ∧ (process 2 (mkRat 1 2) 1000 (env9 (mkRat 19 20))
        (lit "show me all users")).1.query_result.status = lit "success"
    ∧ mkRat 1 2
        ≤ (process 2 (mkRat 1 2) 1000 (env9 (mkRat 19 20)) (lit "show me all users")).1.confidence
    ∧ (process 2 (mkRat 1 2) 1000 (env9 (mkRat 19 20)) (lit "show me all users")).2
        = [lit "SELECT * FROM users LIMIT 1000"] :=
  ⟨by decide, conf9_value, by decide, by decide, by decide, by decide⟩

/-! ### Toolbox for the LIMIT-rewriting proofs -/

/-- A `takeWhile` run that ends inside the first part of an append. -/
theorem takeWhile_append_of_stop {p : Char → Bool} :
    ∀ {a : Str} (b : Str), a.dropWhile p ≠ [] → (a ++ b).takeWhile p = a.takeWhile p := by
  intro a
  induction a with
  | nil => intro b h; exact absurd rfl h
  | cons c t ih =>
    intro b h
    by_cases hc : p c = true
    · rw [List.dropWhile_cons_of_pos hc] at h
      rw [List.cons_append, List.takeWhile_cons_of_pos hc, List.takeWhile_cons_of_pos hc, ih b h]
    · rw [List.cons_append, List.takeWhile_cons_of_neg hc, List.takeWhile_cons_of_neg hc]

/-- A `dropWhile` run that ends inside the first part of an append. -/
theorem dropWhile_append_of_stop {p : Char → Bool} :
    ∀ {a : Str} (b : Str), a.dropWhile p ≠ [] → (a ++ b).dropWhile p = a.dropWhile p ++ b := by
  intro a
  induction a with
  | nil => intro b h; exact absurd rfl h
  | cons c t ih =>
    intro b h
    by_cases hc : p c = true
    · rw [List.dropWhile_cons_of_pos hc] at h
      rw [List.cons_append, List.dropWhile_cons_of_pos hc, List.dropWhile_cons_of_pos hc, ih b h]
    · rw [List.cons_append, List.dropWhile_cons_of_neg hc, List.dropWhile_cons_of_neg hc,
        List.cons_append]

/-- A `takeWhile` run absorbing an all-satisfying first part. -/
theorem takeWhile_append_of_all {p : Char → Bool} :
    ∀ {a : Str} (b : Str), (∀ c ∈ a, p c = true) → (a ++ b).takeWhile p = a ++ b.takeWhile p := by
  intro a
  induction a with
  | nil => intro b _; rfl
  | cons c t ih =>
    intro b h
    have hc : p c = true := h c (List.mem_cons_self c t)
    rw [List.cons_append, List.takeWhile_cons_of_pos hc, List.cons_append,
      ih b (fun d hd => h d (List.mem_cons_of_mem c hd))]

/-- A `dropWhile` run absorbing an all-satisfying first part. -/
theorem dropWhile_append_of_all {p : Char → Bool} :
    ∀ {a : Str} (b : Str), (∀ c ∈ a, p c = true) → (a ++ b).dropWhile p = b.dropWhile p := by
  intro a
  induction a with
  | nil => intro b _; rfl
  | cons c t ih =>
    intro b h
    have hc : p c = true := h c (List.mem_cons_self c t)
    rw [List.cons_append, List.dropWhile_cons_of_pos hc,
      ih b (fun d hd => h d (List.mem_cons_of_mem c hd))]

/-- `takeWhile` of a list whose head (if any) fails the predicate. -/
theorem takeWhile_eq_nil_of_head {p : Char → Bool} {w : Str}
    (h : ∀ c, w.head? = some c → p c = false) : w.takeWhile p = [] := by
  cases w with
  | nil => rfl
  | cons c t =>
    rw [List.takeWhile_cons_of_neg]
    rw [h c rfl]
    exact Bool.false_ne_true

/-- `dropWhile` of a list whose head (if any) fails the predicate. -/
theorem dropWhile_eq_self_of_head {p : Char → Bool} {w : Str}
    (h : ∀ c, w.head? = some c → p c = false) : w.dropWhile p = w := by
  cases w with
  | nil => rfl
  | cons c t =>
    rw [List.dropWhile_cons_of_neg]
    rw [h c rfl]
    exact Bool.false_ne_true

/-- A whitespace character is fixed by upper-casing and its codepoint is
at most 32. -/
theorem space_toUpper {c : Char} (h : pyIsSpace c = true) :
    c.toUpper = c ∧ c.toNat ≤ 32 := by
  rw [pyIsSpace_iff] at h
  constructor
  · apply toUpper_eq_self_of_not_lower
    omega
  · omega

/-- A character whose upper-case is `L` is a letter: neither whitespace
nor a digit. -/
theorem L_char_facts {c : Char} (h : c.toUpper = 'L') :
    pyIsSpace c = false ∧ pyIsDigit c = false := by
  by_cases hr : 97 ≤ c.toNat ∧ c.toNat ≤ 122
  · constructor
    · rw [← Bool.not_eq_true, pyIsSpace_iff]
      omega
    · rw [← Bool.not_eq_true, pyIsDigit_iff]
      omega
  · rw [toUpper_eq_self_of_not_lower hr] at h
    have : c.toNat = 76 := by rw [h]; rfl
    constructor
    · rw [← Bool.not_eq_true, pyIsSpace_iff]
      omega
    · rw [← Bool.not_eq_true, pyIsDigit_iff]
      omega

/-- A whitespace character never upper-cases to an uppercase letter. -/
theorem space_toUpper_ne {c d : Char} (h : pyIsSpace c = true) (hd : 65 ≤ d.toNat) :
    ¬ c.toUpper = d := by
  intro he
  obtain ⟨h1, h2⟩ := space_toUpper h
  rw [h1] at he
  rw [he] at h2
  omega

/-- Every character of `natToDigits` is a decimal digit. -/
theorem natToDigitsCore_digits :
    ∀ f n, ∀ c ∈ natToDigitsCore f n, pyIsDigit c = true := by
  intro f
  induction f with
  | zero => intro n c hc; rw [natToDigitsCore] at hc; cases hc
  | succ f ih =>
    intro n c hc
    cases n with
    | zero => rw [natToDigitsCore] at hc; cases hc
    | succ n =>
      rw [natToDigitsCore] at hc
      rcases List.mem_append.mp hc with h1 | h2
      · exact ih _ c h1
      · rw [List.mem_singleton] at h2
        subst h2
        have hlt : (n + 1) % 10 < 10 := Nat.mod_lt _ (by omega)
        unfold digitChar
        rw [pyIsDigit_iff]
        interval_cases h : (n + 1) % 10 <;> simp

/-- Decimal rendering is never empty for a positive number and never
empty at all. -/
theorem natToDigits_ne_nil (n : Nat) : natToDigits n ≠ [] := by
  unfold natToDigits
  by_cases h : n = 0
  · rw [if_pos h]
    exact List.cons_ne_nil _ _
  · rw [if_neg h]
    cases n with
    | zero => exact absurd rfl h
    | succ n =>
      rw [natToDigitsCore]
      intro hc
      exact absurd (List.append_eq_nil.mp hc).2 (List.cons_ne_nil _ _)

/-- All characters of `natToDigits` are digits. -/
theorem natToDigits_digits (n : Nat) : ∀ c ∈ natToDigits n, pyIsDigit c = true := by
  unfold natToDigits
  by_cases h : n = 0
  · rw [if_pos h]
    intro c hc
    rw [List.mem_singleton] at hc
    subst hc
    decide
  · rw [if_neg h]
    exact natToDigitsCore_digits n n

/-- Horner step of `digitsToNat` over a final digit. -/
theorem digitsToNat_append_digit (xs : Str) (c : Char) :
    digitsToNat (xs ++ [c]) = 10 * digitsToNat xs + (c.toNat - 48) := by
  unfold digitsToNat
  rw [List.foldl_append]
  rfl

/-- The codepoint of `digitChar`. -/
theorem digitChar_toNat {d : Nat} (h : d < 10) : (digitChar d).toNat = 48 + d := by
  interval_cases d <;> decide

/-- `digitsToNat` inverts the fueled decimal rendering. -/
theorem digitsToNat_natToDigitsCore :
    ∀ f n, n ≤ f → digitsToNat (natToDigitsCore f n) = n := by
  intro f
  induction f with
  | zero =>
    intro n h
    have : n = 0 := by omega
    subst this
    rfl
  | succ f ih =>
    intro n h
    cases n with
    | zero => rfl
    | succ n =>
      rw [natToDigitsCore, digitsToNat_append_digit]
      have h10 : (n + 1) % 10 < 10 := Nat.mod_lt _ (by omega)
      rw [digitChar_toNat h10]
      have hdiv : (n + 1) / 10 ≤ f := by
        have := Nat.div_le_self (n + 1) 10
        have h2 : (n + 1) / 10 < n + 1 := Nat.div_lt_self (by omega) (by omega)
        omega
      rw [ih _ hdiv]
      have := Nat.div_add_mod (n + 1) 10
      omega

/-- `digitsToNat` inverts decimal rendering. -/
theorem digitsToNat_natToDigits (n : Nat) : digitsToNat (natToDigits n) = n := by
  unfold natToDigits
  by_cases h : n = 0
  · rw [if_pos h, h]
    rfl
  · rw [if_neg h]
    exact digitsToNat_natToDigitsCore n n le_rfl

/-- Inversion and construction for the case-insensitive `LIMIT` head
match. -/
theorem stripLIMIT_eq_some {s r : Str} :
    stripLIMIT s = some r
      ↔ ∃ c1 c2 c3 c4 c5, s = c1 :: c2 :: c3 :: c4 :: c5 :: r
          ∧ c1.toUpper = 'L' ∧ c2.toUpper = 'I' ∧ c3.toUpper = 'M'
          ∧ c4.toUpper = 'I' ∧ c5.toUpper = 'T' := by
  constructor
  · intro h
    rcases s with _ | ⟨c1, s⟩
    · simp [stripLIMIT] at h
    rcases s with _ | ⟨c2, s⟩
    · simp [stripLIMIT] at h
    rcases s with _ | ⟨c3, s⟩
    · simp [stripLIMIT] at h
    rcases s with _ | ⟨c4, s⟩
    · simp [stripLIMIT] at h
    rcases s with _ | ⟨c5, s⟩
    · simp [stripLIMIT] at h
    simp only [stripLIMIT] at h
    split at h
    · rename_i hcond
      injection h with h
      subst h
      exact ⟨c1, c2, c3, c4, c5, rfl, hcond.1, hcond.2.1, hcond.2.2.1,
        hcond.2.2.2.1, hcond.2.2.2.2⟩
    · cases h
  · rintro ⟨c1, c2, c3, c4, c5, rfl, h1, h2, h3, h4, h5⟩
    simp only [stripLIMIT]
    rw [if_pos ⟨h1, h2, h3, h4, h5⟩]

/-- A whitespace head never starts a `LIMIT` match. -/
theorem stripLIMIT_space_head {c : Char} {t : Str} (h : pyIsSpace c = true) :
    stripLIMIT (c :: t) = none := by
  cases hs : stripLIMIT (c :: t) with
  | none => rfl
  | some r =>
    exfalso
    obtain ⟨c1, c2, c3, c4, c5, heq, h1, -⟩ := stripLIMIT_eq_some.mp hs
    simp only [List.cons.injEq] at heq
    rw [← heq.1] at h1
    exact space_toUpper_ne h (by decide) h1

/-- A successful `LIMIT` head match survives any right extension. -/
theorem stripLIMIT_append {x r : Str} (w : Str) (h : stripLIMIT x = some r) :
    stripLIMIT (x ++ w) = some (r ++ w) := by
  obtain ⟨c1, c2, c3, c4, c5, rfl, h1, h2, h3, h4, h5⟩ := stripLIMIT_eq_some.mp h
  exact stripLIMIT_eq_some.mpr ⟨c1, c2, c3, c4, c5, rfl, h1, h2, h3, h4, h5⟩

/-- A short prefix (a fifth of the pattern or less) followed by a letter
upper-casing to `L` never carries a `LIMIT` head match: the boundary
letter would have to match one of `I`, `M`, `T`. -/
theorem stripLIMIT_short_L {p : Str} {u : Char} {r : Str}
    (hl1 : 1 ≤ p.length) (hl4 : p.length ≤ 4) (hu : u.toUpper = 'L') :
    stripLIMIT (p ++ u :: r) = none := by
  cases hs : stripLIMIT (p ++ u :: r) with
  | none => rfl
  | some rr =>
    exfalso
    obtain ⟨c1, c2, c3, c4, c5, heq, h1, h2, h3, h4, h5⟩ := stripLIMIT_eq_some.mp hs
    rcases p with _ | ⟨p1, p⟩
    · simp at hl1
    rcases p with _ | ⟨p2, p⟩
    · simp only [List.cons_append, List.nil_append, List.cons.injEq] at heq
      rw [← heq.2.1] at h2
      rw [hu] at h2
      exact absurd h2 (by decide)
    rcases p with _ | ⟨p3, p⟩
    · simp only [List.cons_append, List.nil_append, List.cons.injEq] at heq
      rw [← heq.2.2.1] at h3
      rw [hu] at h3
      exact absurd h3 (by decide)
    rcases p with _ | ⟨p4, p⟩
    · simp only [List.cons_append, List.nil_append, List.cons.injEq] at heq
      rw [← heq.2.2.2.1] at h4
      rw [hu] at h4
      exact absurd h4 (by decide)
    rcases p with _ | ⟨p5, p⟩
    · simp only [List.cons_append, List.nil_append, List.cons.injEq] at heq
      rw [← heq.2.2.2.2.1] at h5
      rw [hu] at h5
      exact absurd h5 (by decide)
    · simp at hl4

/-- A `LIMIT` match of an extended string whose boundary character is
whitespace already lies within the unextended string. -/
theorem stripLIMIT_nospill_space {x : Str} {d : Char} {X : Str}
    (hx : x ≠ []) (hd : pyIsSpace d = true)
    (h : (stripLIMIT (x ++ d :: X)).isSome = true) : (stripLIMIT x).isSome = true := by
  obtain ⟨r, hr⟩ := Option.isSome_iff_exists.mp h
  obtain ⟨c1, c2, c3, c4, c5, heq, h1, h2, h3, h4, h5⟩ := stripLIMIT_eq_some.mp hr
  rcases x with _ | ⟨x1, x⟩
  · exact absurd rfl hx
  rcases x with _ | ⟨x2, x⟩
  · simp only [List.cons_append, List.nil_append, List.cons.injEq] at heq
    rw [← heq.2.1] at h2
    exact absurd h2 (space_toUpper_ne hd (by decide))
  rcases x with _ | ⟨x3, x⟩
  · simp only [List.cons_append, List.nil_append, List.cons.injEq] at heq
    rw [← heq.2.2.1] at h3
    exact absurd h3 (space_toUpper_ne hd (by decide))
  rcases x with _ | ⟨x4, x⟩
  · simp only [List.cons_append, List.nil_append, List.cons.injEq] at heq
    rw [← heq.2.2.2.1] at h4
    exact absurd h4 (space_toUpper_ne hd (by decide))
  rcases x with _ | ⟨x5, x⟩
  · simp only [List.cons_append, List.nil_append, List.cons.injEq] at heq
    rw [← heq.2.2.2.2.1] at h5
    exact absurd h5 (space_toUpper_ne hd (by decide))
  · simp only [List.cons_append, List.cons.injEq] at heq
    rw [Option.isSome_iff_exists]
    exact ⟨x, stripLIMIT_eq_some.mpr ⟨x1, x2, x3, x4, x5, rfl,
      heq.1 ▸ h1, heq.2.1 ▸ h2, heq.2.2.1 ▸ h3, heq.2.2.2.1 ▸ h4, heq.2.2.2.2.1 ▸ h5⟩⟩

/-- An all-whitespace right extension neither creates nor destroys a
`LIMIT` head match. -/
theorem stripLIMIT_isSome_append_spaces {x w : Str} (hw : ∀ c ∈ w, pyIsSpace c = true) :
    (stripLIMIT (x ++ w)).isSome = (stripLIMIT x).isSome := by
  cases hs : stripLIMIT x with
  | some r =>
    rw [stripLIMIT_append w hs]
    rfl
  | none =>
    cases w with
    | nil => rw [List.append_nil, hs]
    | cons d w2 =>
      cases hb : (stripLIMIT (x ++ d :: w2)).isSome with
      | false => rfl
      | true =>
        exfalso
        rcases x with _ | ⟨y1, ys⟩
        · rw [List.nil_append] at hb
          rw [stripLIMIT_space_head (hw d (List.mem_cons_self d w2))] at hb
          cases hb
        · have h2 := stripLIMIT_nospill_space (List.cons_ne_nil y1 ys)
            (hw d (List.mem_cons_self d w2)) hb
          rw [hs] at h2
          cases h2

/-- The `LIMIT` head match behaves identically on two strings that share
a nonempty prefix and whose boundary characters both upper-case to `L`:
either both fail, or both succeed with corresponding remainders. -/
theorem stripLIMIT_boundary_L {p : Str} {a b : Char} {r1 r2 : Str}
    (hp : p ≠ []) (ha : a.toUpper = 'L') (hb : b.toUpper = 'L') :
    (stripLIMIT (p ++ a :: r1) = none ∧ stripLIMIT (p ++ b :: r2) = none)
    ∨ (∃ pr, stripLIMIT (p ++ a :: r1) = some (pr ++ a :: r1)
        ∧ stripLIMIT (p ++ b :: r2) = some (pr ++ b :: r2)) := by
  by_cases hlen : p.length ≤ 4
  · left
    have hl1 : 1 ≤ p.length := by
      cases p with
      | nil => exact absurd rfl hp
      | cons c t => simp
    exact ⟨stripLIMIT_short_L hl1 hlen ha, stripLIMIT_short_L hl1 hlen hb⟩
  · rcases p with _ | ⟨p1, p⟩
    · simp at hlen
    rcases p with _ | ⟨p2, p⟩
    · simp at hlen
    rcases p with _ | ⟨p3, p⟩
    · simp at hlen
    rcases p with _ | ⟨p4, p⟩
    · simp at hlen
    rcases p with _ | ⟨p5, p⟩
    · simp at hlen
    by_cases hcond : p1.toUpper = 'L' ∧ p2.toUpper = 'I' ∧ p3.toUpper = 'M'
        ∧ p4.toUpper = 'I' ∧ p5.toUpper = 'T'
    · right
      refine ⟨p, ?_, ?_⟩ <;>
        exact stripLIMIT_eq_some.mpr ⟨p1, p2, p3, p4, p5, rfl, hcond.1, hcond.2.1,
          hcond.2.2.1, hcond.2.2.2.1, hcond.2.2.2.2⟩
    · left
      constructor <;>
      · show stripLIMIT (p1 :: p2 :: p3 :: p4 :: p5 :: _) = none
        simp only [stripLIMIT]
        rw [if_neg hcond]

/-- A `takeWhile` run always stops at a boundary character failing the
predicate, whatever comes before it. -/
theorem takeWhile_append_boundary {p : Char → Bool} {u : Char} (hu : p u = false) :
    ∀ (pr r : Str), (pr ++ u :: r).takeWhile p = pr.takeWhile p := by
  intro pr r
  induction pr with
  | nil =>
    rw [List.nil_append, List.takeWhile_nil, List.takeWhile_cons_of_neg]
    rw [hu]
    exact Bool.false_ne_true
  | cons c t ih =>
    by_cases hc : p c = true
    · rw [List.cons_append, List.takeWhile_cons_of_pos hc, List.takeWhile_cons_of_pos hc, ih]
    · rw [List.cons_append, List.takeWhile_cons_of_neg hc, List.takeWhile_cons_of_neg hc]

/-- A `dropWhile` run always stops at a boundary character failing the
predicate, whatever comes before it. -/
theorem dropWhile_append_boundary {p : Char → Bool} {u : Char} (hu : p u = false) :
    ∀ (pr r : Str), (pr ++ u :: r).dropWhile p = pr.dropWhile p ++ u :: r := by
  intro pr r
  induction pr with
  | nil =>
    rw [List.nil_append, List.dropWhile_nil, List.dropWhile_cons_of_neg, List.nil_append]
    rw [hu]
    exact Bool.false_ne_true
  | cons c t ih =>
    by_cases hc : p c = true
    · rw [List.cons_append, List.dropWhile_cons_of_pos hc, List.dropWhile_cons_of_pos hc, ih]
    · rw [List.cons_append, List.dropWhile_cons_of_neg hc, List.dropWhile_cons_of_neg hc,
        List.cons_append]

/-- Full characterisation of a `LIMIT\s+(\d+)` head match across a
boundary character upper-casing to `L`: the whitespace and digit runs
stop at the boundary, so the match outcome and captured value depend
only on the part before the boundary. -/
theorem matchLimitAt_boundary_L_eq {pr : Str} {u : Char} {r : Str} (hu : u.toUpper = 'L')
    (hstrip : stripLIMIT (pr ++ u :: r) = some ((pr.drop 5) ++ u :: r))
    (hlen : 5 ≤ pr.length) :
    matchLimitAt (pr ++ u :: r)
      = (if ((pr.drop 5).takeWhile pyIsSpace).isEmpty then none
         else if (((pr.drop 5).dropWhile pyIsSpace).takeWhile pyIsDigit).isEmpty then none
         else some (digitsToNat (((pr.drop 5).dropWhile pyIsSpace).takeWhile pyIsDigit),
           (((pr.drop 5).dropWhile pyIsSpace).dropWhile pyIsDigit) ++ u :: r)) := by
  obtain ⟨hS, hD⟩ := L_char_facts hu
  unfold matchLimitAt
  rw [hstrip]
  dsimp only
  rw [takeWhile_append_boundary hS, dropWhile_append_boundary hS,
    takeWhile_append_boundary hD, dropWhile_append_boundary hD]

/-- Boundary-`L` correspondence for the full head match: a failing match
stays failing when the part after the boundary letter changes and the
boundary letter stays (case-insensitively) `L`. -/
theorem matchLimitAt_boundary_L {p : Str} {a b : Char} {r1 r2 : Str}
    (hp : p ≠ []) (ha : a.toUpper = 'L') (hb : b.toUpper = 'L')
    (h : matchLimitAt (p ++ a :: r1) = none) : matchLimitAt (p ++ b :: r2) = none := by
  rcases @stripLIMIT_boundary_L p a b r1 r2 hp ha hb with ⟨h1, h2⟩ | ⟨pr, h1, h2⟩
  · unfold matchLimitAt
    rw [h2]
  · have hlen : 5 ≤ p.length := by
      obtain ⟨c1, c2, c3, c4, c5, heq, -⟩ := stripLIMIT_eq_some.mp h1
      have hL := congrArg List.length heq
      simp only [List.length_append, List.length_cons] at hL
      omega
    have hdrop : p.drop 5 = pr := by
      obtain ⟨c1, c2, c3, c4, c5, heq, -⟩ := stripLIMIT_eq_some.mp h1
      rcases p with _ | ⟨p1, p⟩
      · simp at hlen
      rcases p with _ | ⟨p2, p⟩
      · simp at hlen
      rcases p with _ | ⟨p3, p⟩
      · simp at hlen
      rcases p with _ | ⟨p4, p⟩
      · simp at hlen
      rcases p with _ | ⟨p5, p⟩
      · simp at hlen
      simp only [List.cons_append, List.cons.injEq] at heq
      have htail : p ++ a :: r1 = pr ++ a :: r1 := heq.2.2.2.2.2
      have : p = pr := by
        have hlen2 := congrArg List.length htail
        rw [List.length_append, List.length_append] at hlen2
        exact List.append_inj_left htail (by omega)
      rw [List.drop_succ_cons, List.drop_succ_cons, List.drop_succ_cons,
        List.drop_succ_cons, List.drop_succ_cons, List.drop_zero]
      exact this
    rw [matchLimitAt_boundary_L_eq ha (hdrop ▸ h1) hlen] at h
    rw [matchLimitAt_boundary_L_eq hb (hdrop ▸ h2) hlen]
    split at h
    · rename_i hc
      rw [if_pos hc]
    · split at h
      · rename_i hc1 hc2
        rw [if_neg hc1, if_pos hc2]
      · cases h

/-- `dropWhile` never lengthens a list. -/
theorem dropWhile_length_le {p : Char → Bool} : ∀ (l : Str), (List.dropWhile p l).length ≤ l.length := by
  intro l
  induction l with
  | nil => exact Nat.le_refl 0
  | cons c t ih =>
    by_cases hc : p c = true
    · rw [List.dropWhile_cons_of_pos hc]
      exact Nat.le_trans ih (Nat.le_succ _)
    · rw [List.dropWhile_cons_of_neg hc]

/-- The head of a `dropWhile` residue fails the predicate. -/
theorem head_dropWhile_false {p : Char → Bool} :
    ∀ {l : Str} {c : Char}, (List.dropWhile p l).head? = some c → p c = false := by
  intro l
  induction l with
  | nil => intro c h; cases h
  | cons d t ih =>
    intro c h
    by_cases hd : p d = true
    · rw [List.dropWhile_cons_of_pos hd] at h
      exact ih h
    · rw [List.dropWhile_cons_of_neg hd, List.head?_cons] at h
      rw [Bool.not_eq_true] at hd
      injection h with h
      rw [← h]
      exact hd

/-- Every member of a `takeWhile` run satisfies the predicate. -/
theorem mem_takeWhile_pred {p : Char → Bool} :
    ∀ {l : Str} {c : Char}, c ∈ List.takeWhile p l → p c = true := by
  intro l
  induction l with
  | nil => intro c h; cases h
  | cons d t ih =>
    intro c h
    by_cases hd : p d = true
    · rw [List.takeWhile_cons_of_pos hd] at h
      rcases List.mem_cons.mp h with h | h
      · rw [h]; exact hd
      · exact ih h
    · rw [List.takeWhile_cons_of_neg hd] at h
      cases h

/-- A failed `LIMIT` head strip means a failed head match. -/
theorem matchLimitAt_none_of_strip {s : Str} (h : stripLIMIT s = none) :
    matchLimitAt s = none := by
  unfold matchLimitAt
  rw [h]

/-- A whitespace head never starts a `LIMIT\s+(\d+)` match. -/
theorem matchLimitAt_space_head {c : Char} {t : Str} (h : pyIsSpace c = true) :
    matchLimitAt (c :: t) = none :=
  matchLimitAt_none_of_strip (stripLIMIT_space_head h)

/-- Structure of a successful head match: the remainder is strictly
shorter, the first character upper-cases to `L`, and the remainder
never starts with a digit (the digit run is maximal). -/
theorem matchLimitAt_some_facts {s : Str} {k : Nat} {rest : Str}
    (h : matchLimitAt s = some (k, rest)) :
    rest.length < s.length
    ∧ (∀ c, s.head? = some c → c.toUpper = 'L')
    ∧ (∀ c, rest.head? = some c → pyIsDigit c = false) := by
  unfold matchLimitAt at h
  cases hs : stripLIMIT s with
  | none => rw [hs] at h; cases h
  | some r =>
    rw [hs] at h
    dsimp only at h
    split at h
    · cases h
    · split at h
      · cases h
      · injection h with h
        rw [Prod.mk.injEq] at h
        obtain ⟨hk, hrest⟩ := h
        obtain ⟨c1, c2, c3, c4, c5, heq, h1, -⟩ := stripLIMIT_eq_some.mp hs
        refine ⟨?_, ?_, ?_⟩
        · rw [← hrest]
          have l1 : (List.dropWhile pyIsDigit (List.dropWhile pyIsSpace r)).length ≤ r.length :=
            Nat.le_trans (dropWhile_length_le _) (dropWhile_length_le _)
          have l2 := congrArg List.length heq
          simp only [List.length_cons] at l2
          omega
        · intro c hc
          rw [heq, List.head?_cons] at hc
          injection hc with hc
          rw [← hc]
          exact h1
        · intro c hc
          rw [← hrest] at hc
          exact head_dropWhile_false hc

/-- The fuelled substitution core ignores the exact fuel once it covers
the string length. -/
theorem subLimitF_fuel (R : Str) :
    ∀ (f1 : Nat) {f2 : Nat} {s : Str}, s.length ≤ f1 → s.length ≤ f2 →
      subLimitF R f1 s = subLimitF R f2 s := by
  intro f1
  induction f1 with
  | zero =>
    intro f2 s h1 h2
    have hs : s = [] := List.eq_nil_of_length_eq_zero (Nat.le_zero.mp h1)
    subst hs
    cases f2 <;> rfl
  | succ f ih =>
    intro f2 s h1 h2
    cases s with
    | nil => cases f2 <;> rfl
    | cons c t =>
      cases f2 with
      | zero => simp at h2
      | succ f2 =>
        rw [subLimitF, subLimitF]
        cases hm : matchLimitAt (c :: t) with
        | some p =>
          obtain ⟨k, rest⟩ := p
          dsimp only
          have hlen : rest.length < (c :: t).length := (matchLimitAt_some_facts hm).1
          rw [List.length_cons] at hlen h1 h2
          rw [@ih f2 rest (by omega) (by omega)]
        | none =>
          dsimp only
          rw [List.length_cons] at h1 h2
          rw [@ih f2 t (by omega) (by omega)]

/-- Substitution on the empty string. -/
theorem subLimit_nil (R : Str) : subLimit R [] = [] := rfl

/-- Substitution step at a matching position. -/
theorem subLimit_cons_match {R : Str} {c : Char} {t : Str} {k : Nat} {rest : Str}
    (h : matchLimitAt (c :: t) = some (k, rest)) :
    subLimit R (c :: t) = R ++ subLimit R rest := by
  unfold subLimit
  rw [List.length_cons, subLimitF, h]
  dsimp only
  have hlen : rest.length < (c :: t).length := (matchLimitAt_some_facts h).1
  rw [List.length_cons] at hlen
  rw [subLimitF_fuel R t.length (by omega) (Nat.le_refl _)]

/-- Substitution step at a non-matching position. -/
theorem subLimit_cons_none {R : Str} {c : Char} {t : Str}
    (h : matchLimitAt (c :: t) = none) :
    subLimit R (c :: t) = c :: subLimit R t := by
  unfold subLimit
  rw [List.length_cons, subLimitF, h]

/-- A string without any `LIMIT\s+\d+` occurrence is fixed by the
substitution. -/
theorem subLimit_id_of_none {R : Str} : ∀ {s : Str}, searchLimit s = none → subLimit R s = s := by
  intro s
  induction s with
  | nil => intro h; rfl
  | cons c t ih =>
    intro h
    rw [searchLimit] at h
    cases hm : matchLimitAt (c :: t) with
    | some p =>
      rw [hm] at h
      obtain ⟨k, r⟩ := p
      dsimp only at h
      cases h
    | none =>
      rw [hm] at h
      dsimp only at h
      rw [subLimit_cons_none hm, ih h]

/-- A decimal digit is not whitespace. -/
theorem digit_not_space {c : Char} (h : pyIsDigit c = true) : pyIsSpace c = false := by
  rw [pyIsDigit_iff] at h
  rw [← Bool.not_eq_true, pyIsSpace_iff]
  omega

/-- A whitespace character is not a decimal digit. -/
theorem space_not_digit {c : Char} (h : pyIsSpace c = true) : pyIsDigit c = false := by
  rw [pyIsSpace_iff] at h
  rw [← Bool.not_eq_true, pyIsDigit_iff]
  omega

/-- The replacement text `LIMIT <m>` followed by anything that does not
start with a digit is a head match capturing exactly `m`. -/
theorem matchLimitAt_repl {m : Nat} {Z : Str}
    (hz : ∀ c, Z.head? = some c → pyIsDigit c = false) :
    matchLimitAt ((lit "LIMIT " ++ natToDigits m) ++ Z) = some (m, Z) := by
  cases hDE : natToDigits m with
  | nil => exact absurd hDE (natToDigits_ne_nil m)
  | cons d D =>
    have hD : ∀ c ∈ d :: D, pyIsDigit c = true := by
      rw [← hDE]; exact natToDigits_digits m
    have hd : pyIsDigit d = true := hD d (List.mem_cons_self d D)
    have hshape : (lit "LIMIT " ++ (d :: D)) ++ Z
        = 'L' :: 'I' :: 'M' :: 'I' :: 'T' :: ' ' :: ((d :: D) ++ Z) := by
      rw [List.append_assoc]
      rfl
    rw [hshape]
    unfold matchLimitAt
    have hstrip : stripLIMIT ('L' :: 'I' :: 'M' :: 'I' :: 'T' :: ' ' :: ((d :: D) ++ Z))
        = some (' ' :: ((d :: D) ++ Z)) := by
      simp only [stripLIMIT]
      rw [if_pos]
      exact ⟨by decide, by decide, by decide, by decide, by decide⟩
    rw [hstrip]
    dsimp only
    rw [List.takeWhile_cons_of_pos (by decide : pyIsSpace ' ' = true)]
    rw [List.dropWhile_cons_of_pos (by decide : pyIsSpace ' ' = true)]
    rw [List.cons_append, List.dropWhile_cons_of_neg (by rw [digit_not_space hd]; exact Bool.false_ne_true)]
    rw [← List.cons_append]
    rw [takeWhile_append_of_all Z hD, takeWhile_eq_nil_of_head hz, List.append_nil]
    rw [dropWhile_append_of_all Z hD, dropWhile_eq_self_of_head hz]
    rw [if_neg (by simp : ¬ (' ' :: List.takeWhile pyIsSpace ((d :: D) ++ Z)).isEmpty = true)]
    rw [if_neg (by simp : ¬ (d :: D).isEmpty = true)]
    rw [← hDE, digitsToNat_natToDigits]

/-- Searching a string that begins with the replacement text `LIMIT <m>`
finds the value `m` (the trailing part must not start with a digit). -/
theorem searchLimit_repl {m : Nat} {Z : Str}
    (hz : ∀ c, Z.head? = some c → pyIsDigit c = false) :
    searchLimit ((lit "LIMIT " ++ natToDigits m) ++ Z) = some m := by
  have hm := matchLimitAt_repl (m := m) hz
  have hshape : (lit "LIMIT " ++ natToDigits m) ++ Z
      = 'L' :: ('I' :: 'M' :: 'I' :: 'T' :: ' ' :: (natToDigits m ++ Z)) := by
    rw [List.append_assoc]
    rfl
  rw [hshape] at hm ⊢
  rw [searchLimit, hm]

/-- The substitution never makes a string start with a digit unless the
input already did. -/
theorem subLimit_head_not_digit {m : Nat} {z : Str}
    (hz : ∀ c, z.head? = some c → pyIsDigit c = false) :
    ∀ c, (subLimit (lit "LIMIT " ++ natToDigits m) z).head? = some c → pyIsDigit c = false := by
  intro c hc
  cases z with
  | nil => rw [subLimit_nil] at hc; cases hc
  | cons d t =>
    cases hm : matchLimitAt (d :: t) with
    | some p =>
      obtain ⟨k, rest⟩ := p
      rw [subLimit_cons_match hm] at hc
      have hL : ((lit "LIMIT " ++ natToDigits m)
          ++ subLimit (lit "LIMIT " ++ natToDigits m) rest).head? = some 'L' := rfl
      have := hL.symm.trans hc
      injection this with this
      rw [← this]
      decide
    | none =>
      rw [subLimit_cons_none hm, List.head?_cons] at hc
      injection hc with hc
      rw [← hc]
      exact hz d rfl

/-- First-match decomposition of the substitution: either nothing
matches and the string is unchanged, or the string splits at a first
match, where both the original and the substituted string carry a
boundary character upper-casing to `L`. -/
theorem subLimit_decomp (m : Nat) :
    ∀ (t : Str), subLimit (lit "LIMIT " ++ natToDigits m) t = t
      ∨ ∃ pre a r1 r2, t = pre ++ a :: r1
          ∧ subLimit (lit "LIMIT " ++ natToDigits m) t = pre ++ 'L' :: r2
          ∧ a.toUpper = 'L' := by
  intro t
  induction t with
  | nil => left; rfl
  | cons c t ih =>
    cases hm : matchLimitAt (c :: t) with
    | some p =>
      obtain ⟨k, rest⟩ := p
      right
      refine ⟨[], c, t,
        lit "IMIT " ++ (natToDigits m ++ subLimit (lit "LIMIT " ++ natToDigits m) rest),
        rfl, ?_, (matchLimitAt_some_facts hm).2.1 c rfl⟩
      rw [subLimit_cons_match hm, List.nil_append, List.append_assoc]
      rfl
    | none =>
      rcases ih with h | ⟨pre, a, r1, r2, h1, h2, ha⟩
      · left
        rw [subLimit_cons_none hm, h]
      · right
        refine ⟨c :: pre, a, r1, r2, ?_, ?_, ha⟩
        · rw [List.cons_append, ← h1]
        · rw [subLimit_cons_none hm, h2, List.cons_append]

/-- A non-matching head position stays non-matching after the tail is
substituted: the first rewritten occurrence still presents a boundary
letter upper-casing to `L`. -/
theorem matchLimitAt_sub_none {m : Nat} {c : Char} {t : Str}
    (h : matchLimitAt (c :: t) = none) :
    matchLimitAt (c :: subLimit (lit "LIMIT " ++ natToDigits m) t) = none := by
  rcases subLimit_decomp m t with heq | ⟨pre, a, r1, r2, h1, h2, ha⟩
  · rw [heq]; exact h
  · rw [h2]
    rw [h1] at h
    rw [← List.cons_append] at h ⊢
    exact matchLimitAt_boundary_L (List.cons_ne_nil c pre) ha (by decide) h

/-- Main substitution property: if the string has some `LIMIT n` match,
then after `re.sub` with the replacement `LIMIT <m>` the leftmost match
value is exactly `m`. -/
theorem searchLimit_sub {m n : Nat} :
    ∀ {s : Str}, searchLimit s = some n →
      searchLimit (subLimit (lit "LIMIT " ++ natToDigits m) s) = some m := by
  intro s
  induction s with
  | nil => intro h; cases h
  | cons c t ih =>
    intro h
    rw [searchLimit] at h
    cases hm : matchLimitAt (c :: t) with
    | some p =>
      obtain ⟨k, rest⟩ := p
      rw [subLimit_cons_match hm]
      exact searchLimit_repl (subLimit_head_not_digit ((matchLimitAt_some_facts hm).2.2))
    | none =>
      rw [hm] at h
      dsimp only at h
      rw [subLimit_cons_none hm, searchLimit, matchLimitAt_sub_none hm]
      exact ih h

/-- An all-whitespace string contains no `LIMIT\s+\d+` match. -/
theorem searchLimit_all_space : ∀ {w : Str}, (∀ c ∈ w, pyIsSpace c = true) → searchLimit w = none := by
  intro w
  induction w with
  | nil => intro h; rfl
  | cons c t ih =>
    intro hw
    rw [searchLimit, matchLimitAt_space_head (hw c (List.mem_cons_self c t))]
    exact ih (fun d hd => hw d (List.mem_cons_of_mem c hd))

/-- A `takeWhile` run is unaffected by appending material that never
satisfies the predicate. -/
theorem takeWhile_not_append {p : Char → Bool} {w : Str} (hw : ∀ c ∈ w, p c = false) :
    ∀ (y : Str), List.takeWhile p (y ++ w) = List.takeWhile p y := by
  intro y
  induction y with
  | nil =>
    rw [List.nil_append, List.takeWhile_nil]
    exact takeWhile_eq_nil_of_head (fun c hc => hw c (List.mem_of_mem_head? hc))
  | cons c t ih =>
    by_cases hc : p c = true
    · rw [List.cons_append, List.takeWhile_cons_of_pos hc, List.takeWhile_cons_of_pos hc, ih]
    · rw [List.cons_append, List.takeWhile_cons_of_neg hc, List.takeWhile_cons_of_neg hc]

/-- Appending trailing whitespace changes neither the success nor the
captured value of the `LIMIT\s+(\d+)` head match. -/
theorem matchLimitAt_append_spaces_val {w : Str} (hw : ∀ c ∈ w, pyIsSpace c = true)
    (x : Str) :
    (matchLimitAt (x ++ w)).map Prod.fst = (matchLimitAt x).map Prod.fst := by
  have hwd : ∀ c ∈ w, pyIsDigit c = false := fun c hc => space_not_digit (hw c hc)
  cases hs : stripLIMIT x with
  | none =>
    have h0 := stripLIMIT_isSome_append_spaces (x := x) hw
    rw [hs] at h0
    have h2 : stripLIMIT (x ++ w) = none := by
      cases hsx : stripLIMIT (x ++ w) with
      | none => rfl
      | some r => rw [hsx] at h0; cases h0
    rw [matchLimitAt_none_of_strip hs, matchLimitAt_none_of_strip h2]
  | some r =>
    unfold matchLimitAt
    rw [hs, stripLIMIT_append w hs]
    dsimp only
    simp only [apply_ite (Option.map Prod.fst), Option.map_some', Option.map_none']
    cases r with
    | nil =>
      rw [List.nil_append, List.takeWhile_nil]
      rw [if_pos (by rfl : ([] : Str).isEmpty = true)]
      cases w with
      | nil => rw [List.takeWhile_nil, if_pos (by rfl : ([] : Str).isEmpty = true)]
      | cons a wt =>
        rw [List.takeWhile_cons_of_pos (hw a (List.mem_cons_self a wt))]
        rw [if_neg (by simp)]
        have hdw : List.dropWhile pyIsSpace (a :: wt) = [] :=
          List.dropWhile_eq_nil_iff.mpr (fun b hb => hw b hb)
        simp only [hdw, List.takeWhile_nil]
        rw [if_pos (by rfl : ([] : Str).isEmpty = true)]
    | cons h rt =>
      by_cases hsp : pyIsSpace h = true
      · simp only [List.cons_append, List.takeWhile_cons_of_pos hsp,
          List.dropWhile_cons_of_pos hsp, List.isEmpty_cons]
        rw [if_neg (by decide : ¬ (false = true)), if_neg (by decide : ¬ (false = true))]
        by_cases hall : List.dropWhile pyIsSpace rt = []
        · have hmem : ∀ c ∈ rt, pyIsSpace c = true := List.dropWhile_eq_nil_iff.mp hall
          have hdw : List.dropWhile pyIsSpace w = [] :=
            List.dropWhile_eq_nil_iff.mpr (fun b hb => hw b hb)
          simp only [hall, dropWhile_append_of_all w hmem, hdw, List.takeWhile_nil]
        · simp only [dropWhile_append_of_stop w hall, takeWhile_not_append hwd]
      · simp only [List.cons_append, List.takeWhile_cons_of_neg hsp]
        rw [if_pos (by rfl : ([] : Str).isEmpty = true),
          if_pos (by rfl : ([] : Str).isEmpty = true)]

/-- Trailing whitespace does not change the result of the `LIMIT` value
search. -/
theorem searchLimit_append_spaces {w : Str} (hw : ∀ c ∈ w, pyIsSpace c = true) :
    ∀ (x : Str), searchLimit (x ++ w) = searchLimit x := by
  intro x
  induction x with
  | nil =>
    rw [List.nil_append, searchLimit_all_space hw]
    rfl
  | cons c t ih =>
    rw [List.cons_append, searchLimit, searchLimit, ← List.cons_append]
    have hv := matchLimitAt_append_spaces_val hw (c :: t)
    cases hm : matchLimitAt (c :: t) with
    | some p =>
      obtain ⟨k, r⟩ := p
      rw [hm] at hv
      cases hm2 : matchLimitAt ((c :: t) ++ w) with
      | none => rw [hm2] at hv; simp at hv
      | some q =>
        obtain ⟨k2, r2⟩ := q
        rw [hm2] at hv
        simp only [Option.map_some'] at hv
        injection hv with hv
        dsimp only
        rw [hv]
    | none =>
      rw [hm] at hv
      cases hm2 : matchLimitAt ((c :: t) ++ w) with
      | some q =>
        rw [hm2] at hv
        simp at hv
      | none =>
        dsimp only
        exact ih

/-- A string is its right-strip followed by trailing whitespace. -/
theorem pyRstrip_decomp (s : Str) :
    ∃ w, (∀ c ∈ w, pyIsSpace c = true) ∧ s = pyRstrip s ++ w := by
  refine ⟨(List.takeWhile pyIsSpace s.reverse).reverse, ?_, ?_⟩
  · intro c hc
    rw [List.mem_reverse] at hc
    exact mem_takeWhile_pred hc
  · unfold pyRstrip
    rw [← List.reverse_append, List.takeWhile_append_dropWhile, List.reverse_reverse]

/-- Right-stripping does not change the `LIMIT` value search. -/
theorem searchLimit_pyRstrip (s : Str) : searchLimit (pyRstrip s) = searchLimit s := by
  obtain ⟨w, hw, hdec⟩ := pyRstrip_decomp s
  conv_rhs => rw [hdec]
  rw [searchLimit_append_spaces hw]

/-- Left-stripping does not change the `LIMIT` value search. -/
theorem searchLimit_pyLstrip : ∀ (s : Str), searchLimit (pyLstrip s) = searchLimit s := by
  intro s
  induction s with
  | nil => rfl
  | cons c t ih =>
    unfold pyLstrip at ih ⊢
    by_cases hc : pyIsSpace c = true
    · rw [List.dropWhile_cons_of_pos hc]
      conv_rhs => rw [searchLimit]
      rw [matchLimitAt_space_head hc]
      exact ih
    · rw [List.dropWhile_cons_of_neg hc]

/-- Python `.strip()` does not change the `LIMIT` value search. -/
theorem searchLimit_pyStrip (s : Str) : searchLimit (pyStrip s) = searchLimit s := by
  unfold pyStrip
  rw [searchLimit_pyLstrip, searchLimit_pyRstrip]

/-- Upper-casing commutes with the head `LIMIT` strip. -/
theorem stripLIMIT_pyUpper (s : Str) :
    stripLIMIT (pyUpper s) = Option.map pyUpper (stripLIMIT s) := by
  rcases s with _ | ⟨c1, s⟩
  · rfl
  rcases s with _ | ⟨c2, s⟩
  · rfl
  rcases s with _ | ⟨c3, s⟩
  · rfl
  rcases s with _ | ⟨c4, s⟩
  · rfl
  rcases s with _ | ⟨c5, s⟩
  · rfl
  show stripLIMIT (c1.toUpper :: c2.toUpper :: c3.toUpper :: c4.toUpper :: c5.toUpper :: pyUpper s)
    = Option.map pyUpper (stripLIMIT (c1 :: c2 :: c3 :: c4 :: c5 :: s))
  simp only [stripLIMIT, toUpper_toUpper]
  by_cases hc : c1.toUpper = 'L' ∧ c2.toUpper = 'I' ∧ c3.toUpper = 'M'
      ∧ c4.toUpper = 'I' ∧ c5.toUpper = 'T'
  · rw [if_pos hc, if_pos hc]
    rfl
  · rw [if_neg hc, if_neg hc]
    rfl

/-- Mapping preserves emptiness. -/
theorem isEmpty_map (f : Char → Char) : ∀ (l : Str), (List.map f l).isEmpty = l.isEmpty := by
  intro l
  cases l <;> rfl

/-- Upper-casing changes neither the success nor the captured value of
the `LIMIT\s+(\d+)` head match. -/
theorem matchLimitAt_pyUpper_val (s : Str) :
    (matchLimitAt (pyUpper s)).map Prod.fst = (matchLimitAt s).map Prod.fst := by
  cases hs : stripLIMIT s with
  | none =>
    have h2 : stripLIMIT (pyUpper s) = none := by
      rw [stripLIMIT_pyUpper, hs]
      rfl
    rw [matchLimitAt_none_of_strip hs, matchLimitAt_none_of_strip h2]
  | some r =>
    have h2 : stripLIMIT (pyUpper s) = some (pyUpper r) := by
      rw [stripLIMIT_pyUpper, hs]
      rfl
    unfold matchLimitAt
    rw [hs, h2]
    dsimp only
    have hsp : (pyIsSpace ∘ Char.toUpper) = pyIsSpace := funext pyIsSpace_toUpper
    have hdg : (pyIsDigit ∘ Char.toUpper) = pyIsDigit := funext pyIsDigit_toUpper
    unfold pyUpper
    rw [List.takeWhile_map, List.dropWhile_map, hsp, List.takeWhile_map, List.dropWhile_map, hdg]
    rw [isEmpty_map, isEmpty_map]
    have hfix : List.map Char.toUpper (List.takeWhile pyIsDigit (List.dropWhile pyIsSpace r))
        = List.takeWhile pyIsDigit (List.dropWhile pyIsSpace r) := by
      have := List.map_congr_left
        (fun c hc => toUpper_of_digit (mem_takeWhile_pred hc)
          : ∀ c ∈ List.takeWhile pyIsDigit (List.dropWhile pyIsSpace r), Char.toUpper c = id c)
      rw [this]
      exact List.map_id' _
    rw [hfix]
    simp only [apply_ite (Option.map Prod.fst), Option.map_some', Option.map_none']

/-- Upper-casing does not change the `LIMIT` value search. -/
theorem searchLimit_pyUpper : ∀ (s : Str), searchLimit (pyUpper s) = searchLimit s := by
  intro s
  induction s with
  | nil => rfl
  | cons c t ih =>
    have hv := matchLimitAt_pyUpper_val (c :: t)
    show searchLimit (c.toUpper :: pyUpper t) = searchLimit (c :: t)
    rw [searchLimit, searchLimit]
    have hshape : pyUpper (c :: t) = c.toUpper :: pyUpper t := rfl
    rw [hshape] at hv
    cases hm : matchLimitAt (c :: t) with
    | some p =>
      obtain ⟨k, r⟩ := p
      rw [hm] at hv
      cases hm2 : matchLimitAt (c.toUpper :: pyUpper t) with
      | none => rw [hm2] at hv; simp at hv
      | some q =>
        obtain ⟨k2, r2⟩ := q
        rw [hm2] at hv
        simp only [Option.map_some'] at hv
        injection hv with hv
        dsimp only
        rw [hv]
    | none =>
      rw [hm] at hv
      cases hm2 : matchLimitAt (c.toUpper :: pyUpper t) with
      | some q =>
        rw [hm2] at hv
        simp at hv
      | none =>
        dsimp only
        exact ih

/-- A successful `LIMIT` strip anywhere inside a string makes the
upper-cased string contain the literal `LIMIT`. -/
theorem containsSub_upper_of_strip {s y z r : Str} (hs : s = y ++ z)
    (hz : stripLIMIT z = some r) : containsSub (lit "LIMIT") (pyUpper s) = true := by
  obtain ⟨c1, c2, c3, c4, c5, heq, h1, h2, h3, h4, h5⟩ := stripLIMIT_eq_some.mp hz
  rw [containsSub_iff, hs, heq]
  refine ⟨pyUpper y, pyUpper r, ?_⟩
  show pyUpper y ++ lit "LIMIT" ++ pyUpper r = pyUpper (y ++ c1 :: c2 :: c3 :: c4 :: c5 :: r)
  unfold pyUpper
  rw [List.map_append, List.map_cons, List.map_cons, List.map_cons, List.map_cons, List.map_cons,
    h1, h2, h3, h4, h5, List.append_assoc]
  rfl

/-- A successful value search means the upper-cased string contains the
literal `LIMIT`. -/
theorem searchLimit_containsSub : ∀ {s : Str} {k : Nat}, searchLimit s = some k →
    containsSub (lit "LIMIT") (pyUpper s) = true := by
  intro s
  induction s with
  | nil => intro k h; cases h
  | cons c t ih =>
    intro k h
    rw [searchLimit] at h
    cases hm : matchLimitAt (c :: t) with
    | some p =>
      have hstrip : ∃ r, stripLIMIT (c :: t) = some r := by
        cases hs : stripLIMIT (c :: t) with
        | none => rw [matchLimitAt_none_of_strip hs] at hm; cases hm
        | some r => exact ⟨r, rfl⟩
      obtain ⟨r, hr⟩ := hstrip
      exact containsSub_upper_of_strip (List.nil_append (c :: t)).symm hr
    | none =>
      rw [hm] at h
      dsimp only at h
      have hc := ih h
      rw [containsSub_iff] at hc ⊢
      show lit "LIMIT" <:+: pyUpper (c :: t)
      have hshape : pyUpper (c :: t) = c.toUpper :: pyUpper t := rfl
      rw [hshape]
      exact List.infix_cons hc

/-- A list ending in a known last element splits off that element. -/
theorem getLast?_decomp {l : Str} {a : Char} (h : l.getLast? = some a) :
    l = l.dropLast ++ [a] := by
  rw [← List.head?_reverse] at h
  cases hrev : l.reverse with
  | nil => rw [hrev] at h; cases h
  | cons b t =>
    rw [hrev, List.head?_cons] at h
    injection h with h
    have hl : l = t.reverse ++ [b] := by
      have := congrArg List.reverse hrev
      rw [List.reverse_reverse, List.reverse_cons] at this
      exact this
    rw [hl, List.dropLast_concat, h]

/-- Under the executor's no-`LIMIT` branch condition, no suffix of the
stripped query carries a `LIMIT` head match. -/
theorem arl_nolim {q : Str}
    (hcond : containsSub (lit "LIMIT") (pyUpper (pyStrip q)) = false) :
    ∀ y z, pyStrip (if (pyRstrip q).getLast? = some semiChar
        then (pyRstrip q).dropLast else q) = y ++ z → stripLIMIT z = none := by
  intro y z hyz
  cases hzs : stripLIMIT z with
  | none => rfl
  | some r =>
    exfalso
    have hzne : z ≠ [] := by
      intro hC
      rw [hC] at hzs
      cases hzs
    by_cases hsc : (pyRstrip q).getLast? = some semiChar
    · rw [if_pos hsc] at hyz
      obtain ⟨w0, hw0, hq1d⟩ := pyRstrip_decomp ((pyRstrip q).dropLast)
      have hne : List.dropWhile pyIsSpace (pyRstrip ((pyRstrip q).dropLast)) ≠ [] := by
        show pyStrip ((pyRstrip q).dropLast) ≠ []
        rw [hyz]
        intro hC
        exact hzne (List.append_eq_nil.mp hC).2
      have hstripq : pyStrip q = y ++ (z ++ (w0 ++ [semiChar])) := by
        show pyLstrip (pyRstrip q) = _
        conv_lhs => rw [getLast?_decomp hsc, hq1d]
        unfold pyLstrip
        rw [List.append_assoc, dropWhile_append_of_stop _ hne]
        rw [show List.dropWhile pyIsSpace (pyRstrip ((pyRstrip q).dropLast))
          = pyStrip ((pyRstrip q).dropLast) from rfl]
        rw [hyz, List.append_assoc]
      have := containsSub_upper_of_strip hstripq (stripLIMIT_append (w0 ++ [semiChar]) hzs)
      rw [hcond] at this
      cases this
    · rw [if_neg hsc] at hyz
      have := containsSub_upper_of_strip hyz hzs
      rw [hcond] at this
      cases this

/-- Scanning a `LIMIT`-free prefix followed by the executor's appended
clause ` LIMIT <m>` finds exactly the value `m`. -/
theorem searchLimit_scan_append {m : Nat} :
    ∀ {A : Str}, (∀ y z, A = y ++ z → stripLIMIT z = none) →
      searchLimit (A ++ (lit " LIMIT " ++ natToDigits m)) = some m := by
  intro A
  induction A with
  | nil =>
    intro _
    rw [List.nil_append]
    have hshape : lit " LIMIT " ++ natToDigits m
        = ' ' :: ((lit "LIMIT " ++ natToDigits m) ++ []) := by
      rw [List.append_nil]
      rfl
    rw [hshape, searchLimit, matchLimitAt_space_head (by decide)]
    exact searchLimit_repl (fun c hc => Option.noConfusion hc)
  | cons a A ih =>
    intro hno
    have hsp : lit " LIMIT " ++ natToDigits m = ' ' :: (lit "LIMIT " ++ natToDigits m) := rfl
    have hmn : matchLimitAt ((a :: A) ++ (lit " LIMIT " ++ natToDigits m)) = none := by
      apply matchLimitAt_none_of_strip
      rw [hsp]
      cases hss : stripLIMIT ((a :: A) ++ ' ' :: (lit "LIMIT " ++ natToDigits m)) with
      | none => rfl
      | some r =>
        exfalso
        have hIs := stripLIMIT_nospill_space (List.cons_ne_nil a A)
          (by decide : pyIsSpace ' ' = true) (by rw [hss]; rfl)
        rw [hno [] (a :: A) rfl] at hIs
        cases hIs
    rw [List.cons_append, searchLimit, ← List.cons_append, hmn]
    exact ih (fun y z hyz => hno (a :: y) z (by rw [List.cons_append, hyz]))

/-- When the query already carries `LIMIT n` with `n ≤ max_rows`, the
executor returns it unchanged. -/
theorem arl_eq_self {m n : Nat} {q : Str}
    (h : searchLimit (pyUpper (pyStrip q)) = some n) (hle : n ≤ m) :
    add_result_limit m q = q := by
  have hcs : containsSub (lit "LIMIT") (pyUpper (pyStrip q)) = true := by
    rw [searchLimit_pyUpper] at h
    exact searchLimit_containsSub h
  unfold add_result_limit
  dsimp only
  rw [if_pos hcs, h]
  dsimp only
  rw [if_neg (by omega : ¬ m < n)]

/-- When the query carries `LIMIT n` with `n > max_rows`, the executor
rewrites it, and the rewritten query's leftmost `LIMIT` value is exactly
`max_rows`. -/
theorem arl_caps {m n : Nat} {q : Str}
    (h : searchLimit (pyUpper (pyStrip q)) = some n) (hlt : m < n) :
    add_result_limit m q = subLimit (lit "LIMIT " ++ natToDigits m) q
    ∧ searchLimit (add_result_limit m q) = some m := by
  have hq : searchLimit q = some n := by
    rw [searchLimit_pyUpper, searchLimit_pyStrip] at h
    exact h
  have hcs : containsSub (lit "LIMIT") (pyUpper (pyStrip q)) = true := by
    rw [searchLimit_pyUpper] at h
    exact searchLimit_containsSub h
  have harl : add_result_limit m q = subLimit (lit "LIMIT " ++ natToDigits m) q := by
    unfold add_result_limit
    dsimp only
    rw [if_pos hcs, h]
    dsimp only
    rw [if_pos hlt]
  refine ⟨harl, ?_⟩
  rw [harl]
  exact searchLimit_sub hq

/-- In the no-`LIMIT` branch the executor appends ` LIMIT <max_rows>`
after stripping (and removing a trailing semicolon), and the resulting
query's leftmost `LIMIT` value is exactly `max_rows`. -/
theorem arl_appends {m : Nat} {q : Str}
    (hcond : containsSub (lit "LIMIT") (pyUpper (pyStrip q)) = false) :
    add_result_limit m q
      = pyStrip (if (pyRstrip q).getLast? = some semiChar then (pyRstrip q).dropLast else q)
        ++ (lit " LIMIT " ++ natToDigits m)
    ∧ searchLimit (add_result_limit m q) = some m := by
  have harl : add_result_limit m q
      = pyStrip (if (pyRstrip q).getLast? = some semiChar then (pyRstrip q).dropLast else q)
        ++ (lit " LIMIT " ++ natToDigits m) := by
    unfold add_result_limit
    dsimp only
    rw [if_neg (by rw [hcond]; decide)]
  refine ⟨harl, ?_⟩
  rw [harl]
  exact searchLimit_scan_append (arl_nolim hcond)

/-- C6: `QueryExecutor._add_result_limit` is idempotent; when the query
carries `LIMIT n` (leftmost match of the stripped upper-cased text) with
`n ≤ max_rows` it is returned unchanged, and with `n > max_rows` its
leftmost `LIMIT` value becomes exactly `max_rows`; when the stripped
upper-cased query does not contain `LIMIT` at all, the executor appends
` LIMIT max_rows` after stripping and removing a trailing semicolon. -/
theorem C6_add_result_limit (m : Nat) (q : Str) :
    add_result_limit m (add_result_limit m q) = add_result_limit m q
    ∧ (∀ n, searchLimit (pyUpper (pyStrip q)) = some n → n ≤ m → add_result_limit m q = q)
    ∧ (∀ n, searchLimit (pyUpper (pyStrip q)) = some n → m < n →
        searchLimit (pyUpper (pyStrip (add_result_limit m q))) = some m)
    ∧ (containsSub (lit "LIMIT") (pyUpper (pyStrip q)) = false →
        add_result_limit m q
          = pyStrip (if (pyRstrip q).getLast? = some semiChar then (pyRstrip q).dropLast else q)
            ++ (lit " LIMIT " ++ natToDigits m)) := by
  refine ⟨?_, fun n h hle => arl_eq_self h hle, ?_, fun hc => (arl_appends hc).1⟩
  · by_cases hcond : containsSub (lit "LIMIT") (pyUpper (pyStrip q)) = true
    · cases hsl : searchLimit (pyUpper (pyStrip q)) with
      | none =>
        have hq : add_result_limit m q = q := by
          unfold add_result_limit
          dsimp only
          rw [if_pos hcond, hsl]
        rw [hq]
        exact hq
      | some n =>
        by_cases hlt : m < n
        · obtain ⟨h1, h2⟩ := arl_caps hsl hlt
          exact arl_eq_self (n := m)
            (by rw [searchLimit_pyUpper, searchLimit_pyStrip]; exact h2) (Nat.le_refl m)
        · rw [arl_eq_self hsl (by omega)]
          exact arl_eq_self hsl (by omega)
    · rw [Bool.not_eq_true] at hcond
      obtain ⟨h1, h2⟩ := arl_appends (m := m) hcond
      exact arl_eq_self (n := m)
        (by rw [searchLimit_pyUpper, searchLimit_pyStrip]; exact h2) (Nat.le_refl m)
  · intro n h hlt
    rw [searchLimit_pyUpper, searchLimit_pyStrip]
    exact (arl_caps h hlt).2

/-- Witness for C6 at concrete queries: an under-cap `LIMIT 50` is kept,
an over-cap `LIMIT 900` is rewritten to `LIMIT 100`, a query without
`LIMIT` gets the clause appended after semicolon removal, and
re-applying the cap is a no-op. -/
theorem C6_witness :
    (searchLimit (pyUpper (pyStrip (lit "SELECT * FROM t LIMIT 50"))) = some 50
      ∧ 50 ≤ 100
      ∧ add_result_limit 100 (lit "SELECT * FROM t LIMIT 50") = lit "SELECT * FROM t LIMIT 50")
    ∧ (searchLimit (pyUpper (pyStrip (lit "SELECT * FROM t LIMIT 900"))) = some 900
      ∧ 100 < 900
      ∧ searchLimit (pyUpper (pyStrip
          (add_result_limit 100 (lit "SELECT * FROM t LIMIT 900")))) = some 100)
    ∧ (containsSub (lit "LIMIT") (pyUpper (pyStrip (lit "SELECT * FROM t;"))) = false
      ∧ add_result_limit 100 (lit "SELECT * FROM t;")
          = pyStrip (if (pyRstrip (lit "SELECT * FROM t;")).getLast? = some semiChar
              then (pyRstrip (lit "SELECT * FROM t;")).dropLast else lit "SELECT * FROM t;")
            ++ (lit " LIMIT " ++ natToDigits 100))
    ∧ add_result_limit 100 (add_result_limit 100 (lit "SELECT * FROM t LIMIT 900"))
        = add_result_limit 100 (lit "SELECT * FROM t LIMIT 900") :=
  ⟨⟨by decide, by decide,
    (C6_add_result_limit 100 (lit "SELECT * FROM t LIMIT 50")).2.1 50 (by decide) (by decide)⟩,
   ⟨by decide, by decide,
    (C6_add_result_limit 100 (lit "SELECT * FROM t LIMIT 900")).2.2.1 900 (by decide) (by decide)⟩,
   ⟨by decide,
    (C6_add_result_limit 100 (lit "SELECT * FROM t;")).2.2.2 (by decide)⟩,
   (C6_add_result_limit 100 (lit "SELECT * FROM t LIMIT 900")).1⟩
